import Mathlib

/-!
Shallow embedding of the deno-efs core (`mod.ts`): the asset discoverer
`generateAssetReferences` and the in-memory `ArchiveReader`, together with
models of the external primitives the code calls:

* `std/encoding/base64` (`encode`, `decode` via `atob`),
* `std/path` posix helpers (`toFileUrl`, `fromFileUrl`, `resolve`, `relative`),
* the WHATWG URL path parser (backing `toFileUrl` / `fromFileUrl`),
* `TextDecoder("utf-8")` in its default replacement (non-fatal) mode,
* `decodeURIComponent`,
* `std/path.globToRegExp` and a matcher for the JS-regexp dialect it emits.

Bytes are `Nat` (with explicit `< 256` bounds where it matters), JS exceptions
are an explicit `JsError` type, fallible calls return `Except JsError`, and a
JS `Promise` outcome is itself an `Except JsError` value, so an `async`
operation has type `Except JsError (Except JsError α)`: the outer layer is a
synchronous throw at call time, the inner one the settled promise.
The runtime OS is linux (the posix variants of the std path helpers).
-/

/-- JS exception values, by the classes the modelled code can throw. -/
inductive JsError where
  /-- `Deno.errors.NotFound` -/
  | notFound (msg : String)
  /-- `TypeError` -/
  | typeError (msg : String)
  /-- `URIError` (from `decodeURIComponent`) -/
  | uriError (msg : String)
  /-- `DOMException InvalidCharacterError` (from `atob`) -/
  | invalidCharacter (msg : String)
  /-- `SyntaxError` (from the `RegExp` constructor) -/
  | syntaxError (msg : String)
deriving DecidableEq

instance {e a : Type} [DecidableEq e] [DecidableEq a] : DecidableEq (Except e a) := by
  intro x y
  cases x <;> cases y
  case error.error u v =>
    exact if h : u = v then Decidable.isTrue (by rw [h]) else Decidable.isFalse (by simp [h])
  case ok.ok u v =>
    exact if h : u = v then Decidable.isTrue (by rw [h]) else Decidable.isFalse (by simp [h])
  case error.ok u v => exact Decidable.isFalse (by simp)
  case ok.error u v => exact Decidable.isFalse (by simp)

/-- `IArchiveAssetReference` from `mod.ts`: one archive record. -/
structure IArchiveAssetReference where
  /-- Embedded file system path of asset. POSIX format. -/
  path : String
  /-- Asset encoded as base64 string. -/
  contents : String
deriving DecidableEq

/-- `IAssetReference` from `mod.ts`: a discovered asset. -/
structure IAssetReference where
  /-- Local path of asset. Used for logging. -/
  systemPath : String
  /-- Asset reference. -/
  asset : IArchiveAssetReference
deriving DecidableEq

/-- A `string | URL` argument.  The code only ever uses a `URL` argument via
its `href`, so a URL object is modelled by its href string. -/
inductive PathArg where
  | str (s : String)
  | url (href : String)
deriving DecidableEq

/-! ## base64 (`std@0.167.0/encoding/base64.ts`)

`encode` walks the bytes three at a time emitting alphabet characters and
`=` padding; `decode` is `atob` (WHATWG forgiving-base64 decode) followed by
reading the binary string's char codes. -/

/-- The base64 alphabet `base64abc` from `encoding/base64.ts`. -/
def base64abc : List Char :=
  ['A', 'B', 'C', 'D', 'E', 'F', 'G', 'H', 'I', 'J', 'K', 'L', 'M',
   'N', 'O', 'P', 'Q', 'R', 'S', 'T', 'U', 'V', 'W', 'X', 'Y', 'Z',
   'a', 'b', 'c', 'd', 'e', 'f', 'g', 'h', 'i', 'j', 'k', 'l', 'm',
   'n', 'o', 'p', 'q', 'r', 's', 't', 'u', 'v', 'w', 'x', 'y', 'z',
   '0', '1', '2', '3', '4', '5', '6', '7', '8', '9', '+', '/']

/-- Index into the base64 alphabet (in the source, `base64abc[i]`). -/
def b64Char (n : Nat) : Char := base64abc.getD n 'A'

/-- The encoding loop of `encode`: three input bytes produce four alphabet
characters; a remainder of one or two bytes produces `==` or `=` padding.
`x >> 2` is `x / 4`, `(x & 0x03) << 4` is `(x % 4) * 16`, and so on. -/
def encodeChunks : List Nat → List Char
  | b0 :: b1 :: b2 :: rest =>
      b64Char (b0 / 4) :: b64Char ((b0 % 4) * 16 + b1 / 16) ::
      b64Char ((b1 % 16) * 4 + b2 / 64) :: b64Char (b2 % 64) :: encodeChunks rest
  | [b0, b1] =>
      [b64Char (b0 / 4), b64Char ((b0 % 4) * 16 + b1 / 16), b64Char ((b1 % 16) * 4), '=']
  | [b0] =>
      [b64Char (b0 / 4), b64Char ((b0 % 4) * 16), '=', '=']
  | [] => []

/-- `base64.encode` on raw bytes. -/
def base64encode (data : List Nat) : String := ⟨encodeChunks data⟩

/-- The numeric sextet stream underlying `encodeChunks` (proof helper). -/
def sextets : List Nat → List Nat
  | b0 :: b1 :: b2 :: rest =>
      b0 / 4 :: ((b0 % 4) * 16 + b1 / 16) ::
      ((b1 % 16) * 4 + b2 / 64) :: (b2 % 64) :: sextets rest
  | [b0, b1] => [b0 / 4, (b0 % 4) * 16 + b1 / 16, (b1 % 16) * 4]
  | [b0] => [b0 / 4, (b0 % 4) * 16]
  | [] => []

/-- The `=` padding `encode` appends, by input length. -/
def b64Pad (data : List Nat) : List Char :=
  if data.length % 3 == 1 then ['=', '=']
  else if data.length % 3 == 2 then ['='] else []

/-- Value of a base64 alphabet character, `none` for anything else. -/
def b64Val (c : Char) : Option Nat := base64abc.indexOf? c

/-- ASCII whitespace removed by forgiving-base64 decode (atob). -/
def isB64Ws (c : Char) : Bool :=
  c == ' ' || c == '\t' || c == '\n' || c == Char.ofNat 12 || c == '\r'

/-- Reassemble bytes from sextets, four at a time; a final group of three
sextets carries two bytes, a final group of two carries one.  (A trailing
group of one is rejected before this function is reached.) -/
def decodeSextets : List Nat → List Nat
  | v0 :: v1 :: v2 :: v3 :: rest =>
      (v0 * 4 + v1 / 16) :: ((v1 % 16) * 16 + v2 / 4) ::
      ((v2 % 4) * 64 + v3) :: decodeSextets rest
  | [v0, v1, v2] => [v0 * 4 + v1 / 16, (v1 % 16) * 16 + v2 / 4]
  | [v0, v1] => [v0 * 4 + v1 / 16]
  | [_] => []
  | [] => []

/-- Strip up to two trailing `=` characters (forgiving-base64 step 2). -/
def stripB64Pad (l : List Char) : List Char :=
  let l1 := if l.getLast? == some '=' then l.dropLast else l
  if l1.getLast? == some '=' then l1.dropLast else l1

/-- `atob`'s forgiving-base64 decode, producing the byte values of the binary
string (which `decode` then copies into a `Uint8Array`). -/
def forgivingBase64 (s : List Char) : Except JsError (List Nat) := do
  let t := s.filter (fun c => !isB64Ws c)
  let t := if t.length % 4 == 0 then stripB64Pad t else t
  if t.length % 4 == 1 then
    throw (JsError.invalidCharacter "Failed to decode base64")
  else
    let vs ← t.mapM (fun c =>
      match b64Val c with
      | some v => Except.ok v
      | none => Except.error (JsError.invalidCharacter "Failed to decode base64"))
    pure (decodeSextets vs)

/-- `base64.decode`: `atob` plus reading the char codes. -/
def base64decode (s : String) : Except JsError (List Nat) := forgivingBase64 s.data

/-! ## UTF-8

`utf8DecodeRepl` is the WHATWG UTF-8 decoder in replacement mode — the
behaviour of `new TextDecoder("utf-8")` without `fatal: true`, which the
reader's `#decodeBuffer` uses: a malformed sequence emits U+FFFD and decoding
resumes at the offending byte.  `utf8Strict` is the same automaton in fatal
mode (used by the `decodeURIComponent` model, where a malformed escape-byte
sequence raises `URIError`). -/

/-- The replacement character U+FFFD. -/
def fffd : Char := Char.ofNat 0xFFFD

/-- WHATWG UTF-8 decode, replacement mode (`TextDecoder` default). -/
def utf8DecodeRepl : List Nat → List Char
  | [] => []
  | b :: rest =>
    if b ≤ 0x7F then Char.ofNat b :: utf8DecodeRepl rest
    else if 0xC2 ≤ b && b ≤ 0xDF then
      match rest with
      | c1 :: rest2 =>
        if 0x80 ≤ c1 && c1 ≤ 0xBF then
          Char.ofNat ((b - 0xC0) * 64 + (c1 - 0x80)) :: utf8DecodeRepl rest2
        else fffd :: utf8DecodeRepl (c1 :: rest2)
      | [] => [fffd]
    else if 0xE0 ≤ b && b ≤ 0xEF then
      match rest with
      | c1 :: rest2 =>
        if (if b == 0xE0 then 0xA0 else 0x80) ≤ c1 &&
            c1 ≤ (if b == 0xED then 0x9F else 0xBF) then
          match rest2 with
          | c2 :: rest3 =>
            if 0x80 ≤ c2 && c2 ≤ 0xBF then
              Char.ofNat ((b - 0xE0) * 4096 + (c1 - 0x80) * 64 + (c2 - 0x80)) ::
                utf8DecodeRepl rest3
            else fffd :: utf8DecodeRepl (c2 :: rest3)
          | [] => [fffd]
        else fffd :: utf8DecodeRepl (c1 :: rest2)
      | [] => [fffd]
    else if 0xF0 ≤ b && b ≤ 0xF4 then
      match rest with
      | c1 :: rest2 =>
        if (if b == 0xF0 then 0x90 else 0x80) ≤ c1 &&
            c1 ≤ (if b == 0xF4 then 0x8F else 0xBF) then
          match rest2 with
          | c2 :: rest3 =>
            if 0x80 ≤ c2 && c2 ≤ 0xBF then
              match rest3 with
              | c3 :: rest4 =>
                if 0x80 ≤ c3 && c3 ≤ 0xBF then
                  Char.ofNat ((b - 0xF0) * 262144 + (c1 - 0x80) * 4096 +
                    (c2 - 0x80) * 64 + (c3 - 0x80)) :: utf8DecodeRepl rest4
                else fffd :: utf8DecodeRepl (c3 :: rest4)
              | [] => [fffd]
            else fffd :: utf8DecodeRepl (c2 :: rest3)
          | [] => [fffd]
        else fffd :: utf8DecodeRepl (c1 :: rest2)
      | [] => [fffd]
    else fffd :: utf8DecodeRepl rest

/-- WHATWG UTF-8 decode, fatal mode. -/
def utf8Strict : List Nat → Except JsError (List Char)
  | [] => Except.ok []
  | b :: rest =>
    if b ≤ 0x7F then (Char.ofNat b :: ·) <$> utf8Strict rest
    else if 0xC2 ≤ b && b ≤ 0xDF then
      match rest with
      | c1 :: rest2 =>
        if 0x80 ≤ c1 && c1 ≤ 0xBF then
          (Char.ofNat ((b - 0xC0) * 64 + (c1 - 0x80)) :: ·) <$> utf8Strict rest2
        else Except.error (JsError.uriError "URI malformed")
      | [] => Except.error (JsError.uriError "URI malformed")
    else if 0xE0 ≤ b && b ≤ 0xEF then
      match rest with
      | c1 :: rest2 =>
        if (if b == 0xE0 then 0xA0 else 0x80) ≤ c1 &&
            c1 ≤ (if b == 0xED then 0x9F else 0xBF) then
          match rest2 with
          | c2 :: rest3 =>
            if 0x80 ≤ c2 && c2 ≤ 0xBF then
              (Char.ofNat ((b - 0xE0) * 4096 + (c1 - 0x80) * 64 + (c2 - 0x80)) :: ·) <$>
                utf8Strict rest3
            else Except.error (JsError.uriError "URI malformed")
          | [] => Except.error (JsError.uriError "URI malformed")
        else Except.error (JsError.uriError "URI malformed")
      | [] => Except.error (JsError.uriError "URI malformed")
    else if 0xF0 ≤ b && b ≤ 0xF4 then
      match rest with
      | c1 :: rest2 =>
        if (if b == 0xF0 then 0x90 else 0x80) ≤ c1 &&
            c1 ≤ (if b == 0xF4 then 0x8F else 0xBF) then
          match rest2 with
          | c2 :: rest3 =>
            if 0x80 ≤ c2 && c2 ≤ 0xBF then
              match rest3 with
              | c3 :: rest4 =>
                if 0x80 ≤ c3 && c3 ≤ 0xBF then
                  (Char.ofNat ((b - 0xF0) * 262144 + (c1 - 0x80) * 4096 +
                    (c2 - 0x80) * 64 + (c3 - 0x80)) :: ·) <$> utf8Strict rest4
                else Except.error (JsError.uriError "URI malformed")
              | [] => Except.error (JsError.uriError "URI malformed")
            else Except.error (JsError.uriError "URI malformed")
          | [] => Except.error (JsError.uriError "URI malformed")
        else Except.error (JsError.uriError "URI malformed")
      | [] => Except.error (JsError.uriError "URI malformed")
    else Except.error (JsError.uriError "URI malformed")

/-- Whether a byte list is valid UTF-8 (strict decode succeeds). -/
def isUtf8 (bs : List Nat) : Bool := (utf8Strict bs).toOption.isSome

/-- `new TextDecoder("utf-8").decode(raw)` — the reader's `#decodeBuffer`. -/
def decodeBuffer (raw : List Nat) : String := ⟨utf8DecodeRepl raw⟩

/-! ### base64 round-trip -/

theorem encodeChunks_eq_sextets (B : List Nat) :
    encodeChunks B = (sextets B).map b64Char ++ b64Pad B := by
  induction B using encodeChunks.induct with
  | case1 b0 b1 b2 rest ih =>
      have hmod : (rest.length + 1 + 1 + 1) % 3 = rest.length % 3 := by omega
      simp only [encodeChunks, sextets, b64Pad, List.length_cons, List.map_cons,
        List.cons_append, beq_iff_eq, hmod] at *
      exact congrArg _ (congrArg _ (congrArg _ (congrArg _ ih)))
  | case2 b0 b1 => simp [encodeChunks, sextets, b64Pad]
  | case3 b0 => simp [encodeChunks, sextets, b64Pad]
  | case4 => simp [encodeChunks, sextets, b64Pad]

theorem sextets_lt (B : List Nat) (hB : ∀ b ∈ B, b < 256) :
    ∀ v ∈ sextets B, v < 64 := by
  induction B using sextets.induct with
  | case1 b0 b1 b2 rest ih =>
      intro v hv
      simp only [sextets, List.mem_cons] at hv
      have h0 := hB b0 (by simp)
      have h1 := hB b1 (by simp)
      have h2 := hB b2 (by simp)
      rcases hv with h | h | h | h | h
      · omega
      · omega
      · omega
      · omega
      · exact ih (fun b hb => hB b (by simp [hb])) v h
  | case2 b0 b1 =>
      intro v hv
      have h0 := hB b0 (by simp)
      have h1 := hB b1 (by simp)
      simp only [sextets, List.mem_cons, List.not_mem_nil, or_false] at hv
      rcases hv with h | h | h <;> omega
  | case3 b0 =>
      intro v hv
      have h0 := hB b0 (by simp)
      simp only [sextets, List.mem_cons, List.not_mem_nil, or_false] at hv
      rcases hv with h | h <;> omega
  | case4 => intro v hv; simp [sextets] at hv

theorem b64Val_b64Char : ∀ v < 64, b64Val (b64Char v) = some v := by decide

theorem decodeSextets_sextets (B : List Nat) (hB : ∀ b ∈ B, b < 256) :
    decodeSextets (sextets B) = B := by
  induction B using sextets.induct with
  | case1 b0 b1 b2 rest ih =>
      have h0 := hB b0 (by simp)
      have h1 := hB b1 (by simp)
      have h2 := hB b2 (by simp)
      have hrest : ∀ b ∈ rest, b < 256 := fun b hb => hB b (by simp [hb])
      simp only [sextets, decodeSextets, ih hrest]
      congr 1
      · omega
      · congr 1
        · omega
        · congr 1
          omega
  | case2 b0 b1 =>
      have h0 := hB b0 (by simp)
      have h1 := hB b1 (by simp)
      simp only [sextets, decodeSextets]
      congr 1
      · omega
      · congr 1
        omega
  | case3 b0 =>
      have h0 := hB b0 (by simp)
      simp only [sextets, decodeSextets]
      congr 1
      omega
  | case4 => simp [sextets, decodeSextets]

theorem b64Char_mem (v : Nat) : b64Char v ∈ base64abc := by
  unfold b64Char
  rcases h : base64abc[v]? with _ | c
  · simp [List.getD, h]
    decide
  · simp [List.getD, h]
    exact List.getElem?_mem h

theorem base64abc_not_ws : ∀ c ∈ base64abc, isB64Ws c = false := by decide

theorem base64abc_ne_eq : ∀ c ∈ base64abc, c ≠ '=' := by decide

theorem sextets_length (B : List Nat) :
    (sextets B).length = 4 * (B.length / 3) +
      (if B.length % 3 = 1 then 2 else if B.length % 3 = 2 then 3 else 0) := by
  induction B using sextets.induct with
  | case1 b0 b1 b2 rest ih =>
      simp only [sextets, List.length_cons, ih]
      have h1 : (rest.length + 1 + 1 + 1) % 3 = rest.length % 3 := by omega
      have h2 : (rest.length + 1 + 1 + 1) / 3 = rest.length / 3 + 1 := by omega
      have h3 : rest.length % 3 = 0 ∨ rest.length % 3 = 1 ∨ rest.length % 3 = 2 := by
        omega
      rcases h3 with h | h | h <;> simp only [h1, h2, h] <;> norm_num <;> omega
  | case2 b0 b1 => simp [sextets]
  | case3 b0 => simp [sextets]
  | case4 => simp [sextets]

theorem stripB64Pad_no_eq (l : List Char) (h : ∀ c ∈ l, c ≠ '=') :
    stripB64Pad l = l := by
  have hlast : (l.getLast? == some '=') = false := by
    simp only [beq_eq_false_iff_ne, ne_eq]
    intro hc
    exact h '=' (List.mem_of_mem_getLast? hc) rfl
  simp [stripB64Pad, hlast]

theorem stripB64Pad_one (m : List Char) (h : ∀ c ∈ m, c ≠ '=') :
    stripB64Pad (m ++ ['=']) = m := by
  have hlast : (m.getLast? == some '=') = false := by
    simp only [beq_eq_false_iff_ne, ne_eq]
    intro hc
    exact h '=' (List.mem_of_mem_getLast? hc) rfl
  simp [stripB64Pad, List.getLast?_concat, hlast]

theorem stripB64Pad_two (m : List Char) :
    stripB64Pad (m ++ ['=', '=']) = m := by
  have h2 : m ++ ['=', '='] = (m ++ ['=']) ++ ['='] := by simp
  rw [stripB64Pad, h2]
  simp only [List.getLast?_concat, List.dropLast_concat, beq_self_eq_true, if_true]

theorem mapM_b64Val (vs : List Nat) (h : ∀ v ∈ vs, v < 64) :
    (vs.map b64Char).mapM (fun c =>
      match b64Val c with
      | some v => Except.ok v
      | none => Except.error (JsError.invalidCharacter "Failed to decode base64")) =
      Except.ok vs := by
  induction vs with
  | nil => simp [List.mapM_nil]; rfl
  | cons v rest ih =>
      have hv : b64Val (b64Char v) = some v := b64Val_b64Char v (h v (by simp))
      have hrest := ih (fun w hw => h w (by simp [hw]))
      simp only [List.map_cons, List.mapM_cons, hv, hrest]
      rfl

/-- `base64.decode (base64.encode B) = B` for every byte list `B`. -/
theorem base64_roundtrip (B : List Nat) (hB : ∀ b ∈ B, b < 256) :
    base64decode (base64encode B) = Except.ok B := by
  have henc : (base64encode B).data = (sextets B).map b64Char ++ b64Pad B := by
    show encodeChunks B = _
    exact encodeChunks_eq_sextets B
  have hm_ne : ∀ c ∈ (sextets B).map b64Char, c ≠ '=' := by
    intro c hc
    rcases List.mem_map.mp hc with ⟨v, _, rfl⟩
    exact base64abc_ne_eq _ (b64Char_mem v)
  have hm_ws : ∀ c ∈ (sextets B).map b64Char, isB64Ws c = false := by
    intro c hc
    rcases List.mem_map.mp hc with ⟨v, _, rfl⟩
    exact base64abc_not_ws _ (b64Char_mem v)
  have hpad_ws : ∀ c ∈ b64Pad B, isB64Ws c = false := by
    intro c hc
    have hc' : c = '=' := by
      unfold b64Pad at hc
      split at hc
      · simpa using hc
      · split at hc
        · simpa using hc
        · simp at hc
    rw [hc']
    decide
  have hfilter :
      ((sextets B).map b64Char ++ b64Pad B).filter (fun c => !isB64Ws c) =
        (sextets B).map b64Char ++ b64Pad B := by
    rw [List.filter_eq_self]
    intro c hc
    rcases List.mem_append.mp hc with h | h
    · simp [hm_ws c h]
    · simp [hpad_ws c h]
  have hslen := sextets_length B
  have hmap_len : ((sextets B).map b64Char).length = (sextets B).length :=
    List.length_map _ _
  have hstrip :
      stripB64Pad ((sextets B).map b64Char ++ b64Pad B) = (sextets B).map b64Char := by
    unfold b64Pad
    split
    · exact stripB64Pad_two _
    · split
      · exact stripB64Pad_one _ hm_ne
      · rw [List.append_nil]
        exact stripB64Pad_no_eq _ hm_ne
  have h3 : B.length % 3 = 0 ∨ B.length % 3 = 1 ∨ B.length % 3 = 2 := by omega
  have hlen0 : ((sextets B).map b64Char ++ b64Pad B).length % 4 = 0 := by
    rw [List.length_append, hmap_len, hslen]
    unfold b64Pad
    rcases h3 with h | h | h <;> simp only [h, beq_iff_eq] <;> norm_num <;> omega
  have hmlen_ne1 : ((sextets B).map b64Char).length % 4 ≠ 1 := by
    rw [hmap_len, hslen]
    rcases h3 with h | h | h <;> simp only [h] <;> norm_num <;> omega
  unfold base64decode forgivingBase64
  rw [henc, hfilter]
  simp only [hlen0, beq_self_eq_true, if_true, hstrip]
  rw [if_neg (by simpa using hmlen_ne1)]
  simp only [bind_pure_comp]
  rw [mapM_b64Val _ (sextets_lt B hB)]
  simp only [Except.map_ok]
  rw [decodeSextets_sextets B hB]


/-! ## WHATWG URL path machinery

`path.posix.toFileUrl` builds `new URL("file:///")`, pre-escapes `%` to `%25`
and `\` to `%5C`, percent-encodes the six whitespace characters, assigns the
result to `url.pathname` (the basic URL parser's path state with a state
override), and returns `url.href`.  `path.posix.fromFileUrl` parses a URL
string, takes `url.pathname`, rewrites `%` not followed by two hex digits to
`%25`, and applies `decodeURIComponent`.  Both are modelled here over the
path state of the basic URL parser for the (special) `file` scheme on an
empty host. -/

/-- Hex digit for percent-encoding (the URL serializer emits uppercase). -/
def hexDigitUpper (n : Nat) : Char := "0123456789ABCDEF".data.getD n '0'

/-- ASCII hex digit test (as in the `/%(?![0-9A-Fa-f]{2})/` regexp). -/
def isHexDigit (c : Char) : Bool :=
  (48 ≤ c.toNat && c.toNat ≤ 57) || (65 ≤ c.toNat && c.toNat ≤ 70) ||
    (97 ≤ c.toNat && c.toNat ≤ 102)

/-- Value of a hex digit. -/
def hexVal (c : Char) : Nat :=
  if 48 ≤ c.toNat && c.toNat ≤ 57 then c.toNat - 48
  else if 65 ≤ c.toNat && c.toNat ≤ 70 then c.toNat - 55
  else if 97 ≤ c.toNat && c.toNat ≤ 102 then c.toNat - 87
  else 0

/-- UTF-8 encoding of one scalar value (for percent-encoding). -/
def utf8EncodeChar (c : Char) : List Nat :=
  let n := c.toNat
  if n ≤ 0x7F then [n]
  else if n ≤ 0x7FF then [0xC0 + n / 64, 0x80 + n % 64]
  else if n ≤ 0xFFFF then [0xE0 + n / 4096, 0x80 + (n / 64) % 64, 0x80 + n % 64]
  else [0xF0 + n / 262144, 0x80 + (n / 4096) % 64, 0x80 + (n / 64) % 64, 0x80 + n % 64]

/-- `%XX` escape of one byte. -/
def pctByte (b : Nat) : List Char := ['%', hexDigitUpper (b / 16), hexDigitUpper (b % 16)]

/-- The WHATWG *path percent-encode set*: C0 controls, code points above
`~`, and space `" # < > ?` backtick (0x60) and curly braces (0x7B, 0x7D). -/
def inPathEncodeSet (c : Char) : Bool :=
  let n := c.toNat
  n ≤ 0x1F || 0x7F ≤ n || n == 0x20 || n == 0x22 || n == 0x23 || n == 0x3C ||
    n == 0x3E || n == 0x3F || n == 0x60 || n == 0x7B || n == 0x7D

/-- Percent-encode one code point with the path percent-encode set. -/
def pctEncodeChar (c : Char) : List Char :=
  if inPathEncodeSet c then ((utf8EncodeChar c).map pctByte).flatten else [c]

/-- URL path separators for a special scheme (`file`): `/` and `\`. -/
def isUrlSep (c : Char) : Bool := c == '/' || c == '\\'

/-- Split on URL path separators; always returns at least one segment. -/
def splitSegs : List Char → List (List Char)
  | [] => [[]]
  | c :: rest =>
    if isUrlSep c then [] :: splitSegs rest
    else
      match splitSegs rest with
      | s :: ss => (c :: s) :: ss
      | [] => [[c]]

/-- A *single-dot path segment*: `.` or `%2e` (case-insensitive). -/
def isSingleDotSeg (s : List Char) : Bool :=
  let l := s.map Char.toLower
  l == ['.'] || l == ['%', '2', 'e']

/-- A *double-dot path segment*: `..` or any mix of `.` / `%2e`. -/
def isDoubleDotSeg (s : List Char) : Bool :=
  let l := s.map Char.toLower
  l == ['.', '.'] || l == ['.', '%', '2', 'e'] || l == ['%', '2', 'e', '.'] ||
    l == ['%', '2', 'e', '%', '2', 'e']

/-- ASCII alpha test (for Windows drive letters). -/
def isAsciiAlpha (c : Char) : Bool :=
  (65 ≤ c.toNat && c.toNat ≤ 90) || (97 ≤ c.toNat && c.toNat ≤ 122)

/-- A *Windows drive letter*: a letter followed by `:` or `|`. -/
def isWinDrive (s : List Char) : Bool :=
  match s with
  | [a, b] => isAsciiAlpha a && (b == ':' || b == '|')
  | _ => false

/-- A *normalized Windows drive letter*: a letter followed by `:`. -/
def isNormWinDrive (s : List Char) : Bool :=
  match s with
  | [a, b] => isAsciiAlpha a && b == ':'
  | _ => false

/-- *Shorten a URL's path*: drop the last segment, except a lone normalized
Windows drive letter of a `file` URL. -/
def shortenPath (acc : List (List Char)) : List (List Char) :=
  match acc with
  | [seg] => if isNormWinDrive seg then acc else []
  | _ => acc.dropLast

/-- The basic URL parser's path state over whole segments (`file` scheme,
state after the leading separator).  Each segment arrives raw, is
percent-encoded into the buffer, and at the closing separator (or end of
input — `isLast`) the dot-segment and Windows-drive rules apply. -/
def urlPathProcess (acc : List (List Char)) : List (List Char) → List (List Char)
  | [] => acc
  | seg :: rest =>
    let buf := (seg.map pctEncodeChar).flatten
    let isLast := rest.isEmpty
    if isDoubleDotSeg buf then
      let acc := shortenPath acc
      urlPathProcess (if isLast then acc ++ [[]] else acc) rest
    else if isSingleDotSeg buf then
      urlPathProcess (if isLast then acc ++ [[]] else acc) rest
    else
      let buf := if acc.isEmpty && isWinDrive buf then [buf.headD ' ', ':'] else buf
      urlPathProcess (acc ++ [buf]) rest

/-- Parse a string assigned to `url.pathname` (path start state, state
override given): one leading separator is consumed, the rest is processed
segment by segment. -/
def parseUrlPath (s : List Char) : List (List Char) :=
  let body := match s with
    | c :: rest => if isUrlSep c then rest else s
    | [] => []
  urlPathProcess [] (splitSegs body)

/-- Serialize a URL path: `/` before every segment. -/
def serializePath (segs : List (List Char)) : List Char :=
  (segs.map (fun s => '/' :: s)).flatten

/-- `WHITESPACE_ENCODINGS` applied by `encodeWhitespace` in
`std/path/_util.ts`: tab, LF, VT, FF, CR and space become `%XX`; any other
character (including other `\s` matches) is kept. -/
def encodeWhitespaceChar (c : Char) : List Char :=
  if c.toNat == 9 then ['%', '0', '9']
  else if c.toNat == 10 then ['%', '0', 'A']
  else if c.toNat == 11 then ['%', '0', 'B']
  else if c.toNat == 12 then ['%', '0', 'C']
  else if c.toNat == 13 then ['%', '0', 'D']
  else if c.toNat == 32 then ['%', '2', '0']
  else [c]

/-- `encodeWhitespace` from `std/path/_util.ts`. -/
def encodeWhitespace (s : List Char) : List Char :=
  (s.map encodeWhitespaceChar).flatten

/-- `path.replace(/%/g, "%25")`. -/
def escapePctChars (s : List Char) : List Char :=
  (s.map (fun c => if c == '%' then ['%', '2', '5'] else [c])).flatten

/-- `.replace(/\\/g, "%5C")`. -/
def escapeBackslashChars (s : List Char) : List Char :=
  (s.map (fun c => if c == '\\' then ['%', '5', 'C'] else [c])).flatten

/-- `path.posix.isAbsolute`: nonempty and starting with `/`. -/
def isAbsolutePosix (s : String) : Bool :=
  match s.data with
  | c :: _ => c == '/'
  | [] => false

/-- `path.posix.toFileUrl`: reject non-absolute paths, pre-escape `%` and
`\`, percent-encode whitespace, run the pathname setter on `file:///`, and
serialize the href (empty host, so `file://` + serialized path). -/
def toFileUrl (path : String) : Except JsError String :=
  if isAbsolutePosix path then
    let p := encodeWhitespace (escapeBackslashChars (escapePctChars path.data))
    Except.ok ⟨"file://".data ++ serializePath (parseUrlPath p)⟩
  else Except.error (JsError.typeError "Must be an absolute path.")

/-- `url.pathname.replace(/%(?![0-9A-Fa-f]{2})/g, "%25")`: a `%` not
followed by two hex digits becomes `%25`. -/
def fixLonePct : List Char → List Char
  | [] => []
  | c :: rest =>
    if c == '%' then
      match rest with
      | a :: b :: t =>
        if isHexDigit a && isHexDigit b then '%' :: a :: b :: fixLonePct t
        else '%' :: '2' :: '5' :: fixLonePct (a :: b :: t)
      | [a] => '%' :: '2' :: '5' :: fixLonePct [a]
      | [] => ['%', '2', '5']
    else c :: fixLonePct rest

/-- Collect a maximal run of `%XX` escapes as byte values. -/
def takePcts : List Char → List Nat × List Char
  | c :: a :: b :: t =>
    if c == '%' && isHexDigit a && isHexDigit b then
      let (bs, r) := takePcts t
      ((hexVal a * 16 + hexVal b) :: bs, r)
    else ([], c :: a :: b :: t)
  | l => ([], l)

/-- `decodeURIComponent` worker: literal characters pass through; each
maximal run of `%XX` escapes is decoded as strict UTF-8, a malformed escape
or byte sequence raising `URIError`.  The fuel argument only bounds the
recursion (each step consumes at least one character, so any fuel above the
input length is enough); it keeps the definition structurally recursive so
that it evaluates by kernel reduction. -/
def decodeURIComponentFuel : Nat → List Char → Except JsError (List Char)
  | 0, _ => Except.error (JsError.uriError "URI malformed")
  | _ + 1, [] => Except.ok []
  | fuel + 1, c :: rest =>
    if c = '%' then
      match takePcts (c :: rest) with
      | ([], _) => Except.error (JsError.uriError "URI malformed")
      | (b :: bs, r) => do
        let cs ← utf8Strict (b :: bs)
        let tail ← decodeURIComponentFuel fuel r
        pure (cs ++ tail)
    else do
      let tail ← decodeURIComponentFuel fuel rest
      pure (c :: tail)

/-- `decodeURIComponent`. -/
def decodeURIComponent (l : List Char) : Except JsError (List Char) :=
  decodeURIComponentFuel (l.length + 1) l

/-- `path.posix.fromFileUrl` on a URL string of the explicit-authority form
`file://...` (the only form the discoverer builds): parse the pathname (empty
host; `?` and `#` begin query/fragment), fix lone `%`s, and
`decodeURIComponent`. -/
def fromFileUrl (s : String) : Except JsError String := do
  if ("file://".data).isPrefixOf s.data then
    let rest := s.data.drop 7
    -- our inputs always have an empty host: next is `/`, `?`, `#`, or end
    let pathPortion := rest.takeWhile (fun c => !(c == '?' || c == '#'))
    let pathname :=
      match pathPortion with
      | [] => []
      | _ => serializePath (parseUrlPath pathPortion)
    let dec ← decodeURIComponent (fixLonePct pathname)
    pure ⟨dec⟩
  else
    Except.error (JsError.typeError "Must be a file URL.")

/-! ## `ArchiveReader` (`mod.ts`) -/

/-- `#toPathString`: a `URL` argument is used as is, a string is converted
with `path.posix.toFileUrl`; the result is the URL's `href`. -/
def toPathString (p : PathArg) : Except JsError String :=
  match p with
  | PathArg.url href => Except.ok href
  | PathArg.str s => toFileUrl s

/-- `this.assets.find((e) => this.#toPathString(e.path) === comparePath)`:
the first record whose path converts to `cmp`; a conversion failure inside
the callback propagates out of `find`. -/
def findFirstMatch (cmp : String) :
    List IArchiveAssetReference → Except JsError (Option IArchiveAssetReference)
  | [] => Except.ok none
  | e :: rest => do
    let s ← toPathString (PathArg.str e.path)
    if s = cmp then pure (some e) else findFirstMatch cmp rest

/-- `ArchiveReader.readFileSync`. -/
def readFileSync (assets : List IArchiveAssetReference) (p : PathArg) :
    Except JsError (List Nat) := do
  let comparePath ← toPathString p
  let file ← findFirstMatch comparePath assets
  match file with
  | none => Except.error (JsError.notFound ("File not found: " ++ comparePath))
  | some f => base64decode f.contents

/-- `ArchiveReader.readFile`: `new Promise((resolve, reject) => ...)` whose
executor runs `readFileSync` in a `try`, rejecting on a caught error and
resolving otherwise; the call itself never throws. -/
def readFile (assets : List IArchiveAssetReference) (p : PathArg) :
    Except JsError (Except JsError (List Nat)) :=
  Except.ok
    (match readFileSync assets p with
     | Except.error err => Except.error err
     | Except.ok res => Except.ok res)

/-- `ArchiveReader.readTextFileSync`: `readFileSync` then `#decodeBuffer`. -/
def readTextFileSync (assets : List IArchiveAssetReference) (p : PathArg) :
    Except JsError String := do
  let raw ← readFileSync assets p
  pure (decodeBuffer raw)

/-- `ArchiveReader.readTextFile`: an `async` function (so it never throws at
call time) awaiting `readFile` and decoding the result; a rejection of the
awaited promise becomes a rejection of the returned one. -/
def readTextFile (assets : List IArchiveAssetReference) (p : PathArg) :
    Except JsError (Except JsError String) :=
  Except.ok (do
    let promise ← readFile assets p
    let raw ← promise
    pure (decodeBuffer raw))

/-! ## Well-formed archive paths

Logical archive paths as the spec's data model describes them (`/`-rooted,
`/` separators, no dot segments) and as the discoverer produces them for
ordinary file names: on such paths `toFileUrl` is the plain prefix map
`p ↦ "file://" ++ p`, hence injective, which pins down exact-path lookup. -/

/-- Characters on which the URL path machinery is the identity and which
keep a segment free of dot/drive special cases: ASCII alphanumerics and
`/`, `.`, `_`, `-`. -/
def isSafePathChar (c : Char) : Bool :=
  (48 ≤ c.toNat && c.toNat ≤ 57) || (65 ≤ c.toNat && c.toNat ≤ 90) ||
    (97 ≤ c.toNat && c.toNat ≤ 122) ||
    c.toNat == 0x2F || c.toNat == 0x2E || c.toNat == 0x5F || c.toNat == 0x2D

/-- Well-formed logical path: starts with `/`, safe characters only, and no
`.` or `..` segments. -/
def isWFPath (s : String) : Bool :=
  match s.data with
  | c :: rest =>
    c == '/' && s.data.all isSafePathChar &&
      (splitSegs rest).all (fun seg => !(isSingleDotSeg seg || isDoubleDotSeg seg))
  | [] => false

theorem flatten_map_singleton {α : Type} (f : α → List α) (l : List α)
    (h : ∀ c ∈ l, f c = [c]) : (l.map f).flatten = l := by
  induction l with
  | nil => simp
  | cons c rest ih =>
      simp only [List.map_cons, List.flatten_cons, h c (by simp)]
      simp only [List.cons_append, List.nil_append]
      exact congrArg _ (ih fun x hx => h x (by simp [hx]))

theorem safe_escapePct (l : List Char) (h : ∀ c ∈ l, isSafePathChar c) :
    escapePctChars l = l := by
  apply flatten_map_singleton
  intro c hc
  have := h c hc
  simp only [isSafePathChar, Bool.or_eq_true, Bool.and_eq_true, decide_eq_true_eq,
    beq_iff_eq] at this
  have hne : (c == '%') = false := by
    simp only [beq_eq_false_iff_ne, ne_eq]
    intro heq
    subst heq
    revert this
    decide
  simp [hne]

theorem safe_escapeBackslash (l : List Char) (h : ∀ c ∈ l, isSafePathChar c) :
    escapeBackslashChars l = l := by
  apply flatten_map_singleton
  intro c hc
  have := h c hc
  simp only [isSafePathChar, Bool.or_eq_true, Bool.and_eq_true, decide_eq_true_eq,
    beq_iff_eq] at this
  have hne : (c == '\\') = false := by
    simp only [beq_eq_false_iff_ne, ne_eq]
    intro heq
    subst heq
    revert this
    decide
  simp [hne]

theorem safe_encodeWhitespace (l : List Char) (h : ∀ c ∈ l, isSafePathChar c) :
    encodeWhitespace l = l := by
  apply flatten_map_singleton
  intro c hc
  have := h c hc
  simp only [isSafePathChar, Bool.or_eq_true, Bool.and_eq_true, decide_eq_true_eq,
    beq_iff_eq] at this
  unfold encodeWhitespaceChar
  have h9 : (c.toNat == 9) = false := by simp; omega
  have h10 : (c.toNat == 10) = false := by simp; omega
  have h11 : (c.toNat == 11) = false := by simp; omega
  have h12 : (c.toNat == 12) = false := by simp; omega
  have h13 : (c.toNat == 13) = false := by simp; omega
  have h32 : (c.toNat == 32) = false := by simp; omega
  simp [h9, h10, h11, h12, h13, h32]

theorem safe_pctEncode (l : List Char) (h : ∀ c ∈ l, isSafePathChar c) :
    (l.map pctEncodeChar).flatten = l := by
  apply flatten_map_singleton
  intro c hc
  have := h c hc
  simp only [isSafePathChar, Bool.or_eq_true, Bool.and_eq_true, decide_eq_true_eq,
    beq_iff_eq] at this
  have hne : inPathEncodeSet c = false := by
    simp only [inPathEncodeSet, Bool.or_eq_false_iff, decide_eq_false_iff_not,
      beq_eq_false_iff_ne, ne_eq]
    omega
  simp [pctEncodeChar, hne]

theorem splitSegs_ne_nil (l : List Char) : splitSegs l ≠ [] := by
  cases l with
  | nil => simp [splitSegs]
  | cons c rest =>
      unfold splitSegs
      by_cases h : isUrlSep c = true
      · simp [h]
      · simp only [h, if_false, Bool.false_eq_true]
        rcases hs : splitSegs rest with _ | ⟨s, ss⟩ <;> simp

theorem mem_splitSegs (l : List Char) (c : Char) :
    ∀ seg ∈ splitSegs l, c ∈ seg → c ∈ l := by
  induction l with
  | nil =>
      intro seg hseg hc
      simp [splitSegs] at hseg
      subst hseg
      simp at hc
  | cons d rest ih =>
      intro seg hseg hc
      unfold splitSegs at hseg
      by_cases h : isUrlSep d = true
      · simp only [h, if_true, List.mem_cons] at hseg
        rcases hseg with rfl | hseg
        · simp at hc
        · exact List.mem_cons_of_mem _ (ih seg hseg hc)
      · simp only [h, if_false, Bool.false_eq_true] at hseg
        rcases hs : splitSegs rest with _ | ⟨s, ss⟩
        · exact absurd hs (splitSegs_ne_nil rest)
        · rw [hs] at hseg
          rcases List.mem_cons.mp hseg with rfl | hseg2
          · rcases List.mem_cons.mp hc with rfl | hc2
            · simp
            · refine List.mem_cons_of_mem _ (ih s ?_ hc2)
              rw [hs]
              exact List.mem_cons_self s ss
          · refine List.mem_cons_of_mem _ (ih seg ?_ hc)
            rw [hs]
            exact List.mem_cons_of_mem _ hseg2

theorem serializePath_splitSegs (l : List Char) (h : ∀ c ∈ l, c ≠ '\\') :
    serializePath (splitSegs l) = '/' :: l := by
  induction l with
  | nil => simp [splitSegs, serializePath]
  | cons d rest ih =>
      have hrest : ∀ c ∈ rest, c ≠ '\\' := fun c hc => h c (by simp [hc])
      unfold splitSegs
      by_cases hsep : isUrlSep d = true
      · have hd : d = '/' := by
          have hne := h d (by simp)
          simp only [isUrlSep, Bool.or_eq_true, beq_iff_eq] at hsep
          tauto
        simp only [hsep, if_true]
        unfold serializePath at ih ⊢
        simp only [List.map_cons, List.flatten_cons, ih hrest, hd]
        rfl
      · simp only [hsep, if_false, Bool.false_eq_true]
        rcases hs : splitSegs rest with _ | ⟨s, ss⟩
        · exact absurd hs (splitSegs_ne_nil rest)
        · rw [hs] at ih
          unfold serializePath at ih ⊢
          simp only [List.map_cons, List.flatten_cons] at ih ⊢
          have ih2 := ih hrest
          simp only [List.cons_append] at ih2 ⊢
          have hsplit : s ++ (ss.map (fun t => '/' :: t)).flatten = rest := by
            injection ih2 with _ h2
          rw [hsplit]

theorem safe_not_winDrive (seg : List Char) (h : ∀ c ∈ seg, isSafePathChar c) :
    isWinDrive seg = false := by
  match seg with
  | [] => rfl
  | [a] => rfl
  | [a, b] =>
      have hb := h b (by simp)
      simp only [isWinDrive, Bool.and_eq_false_iff]
      right
      simp only [isSafePathChar, Bool.or_eq_true, Bool.and_eq_true,
        decide_eq_true_eq, beq_iff_eq] at hb
      simp only [Bool.or_eq_false_iff, beq_eq_false_iff_ne, ne_eq]
      constructor
      · intro hc
        subst hc
        revert hb
        decide
      · intro hc
        subst hc
        revert hb
        decide
  | a :: b :: c :: t => rfl

theorem urlPathProcess_plain (segs : List (List Char)) (acc : List (List Char))
    (h : ∀ seg ∈ segs, (∀ c ∈ seg, isSafePathChar c) ∧
      isSingleDotSeg seg = false ∧ isDoubleDotSeg seg = false) :
    urlPathProcess acc segs = acc ++ segs := by
  induction segs generalizing acc with
  | nil => simp [urlPathProcess]
  | cons seg rest ih =>
      obtain ⟨hsafe, hsingle, hdouble⟩ := h seg (by simp)
      have hbuf : (seg.map pctEncodeChar).flatten = seg := safe_pctEncode seg hsafe
      have hwd : isWinDrive seg = false := safe_not_winDrive seg hsafe
      unfold urlPathProcess
      simp only [hbuf, hdouble, hsingle, if_false, Bool.false_eq_true, hwd,
        Bool.and_eq_false_iff]
      have : (acc.isEmpty && false) = false := by simp
      simp only [Bool.and_false, if_false, Bool.false_eq_true]
      rw [ih _ (fun s hs => h s (by simp [hs]))]
      simp

/-- On a well-formed logical path `toFileUrl` is the literal `file://`
prefix map. -/
theorem toFileUrl_wf (p : String) (h : isWFPath p = true) :
    toFileUrl p = Except.ok ("file://" ++ p) := by
  rcases hd : p.data with _ | ⟨c, rest⟩
  · rw [isWFPath, hd] at h
    simp at h
  · rw [isWFPath, hd] at h
    simp only [Bool.and_eq_true, beq_iff_eq, List.all_eq_true, Bool.not_eq_true',
      Bool.or_eq_false_iff] at h
    obtain ⟨⟨hc, hall⟩, hdots⟩ := h
    have hallr : ∀ x ∈ rest, isSafePathChar x := by
      intro x hx
      exact hall x (by simp [hx])
    have habs : isAbsolutePosix p = true := by
      unfold isAbsolutePosix
      rw [hd, hc]
      rfl
    unfold toFileUrl
    rw [habs, if_pos rfl]
    have hallp : ∀ x ∈ p.data, isSafePathChar x := by
      intro x hx
      rw [hd] at hx
      exact hall x hx
    rw [safe_escapePct _ hallp, safe_escapeBackslash _ hallp,
      safe_encodeWhitespace _ hallp]
    unfold parseUrlPath
    rw [hd]
    have hcsep : isUrlSep c = true := by rw [hc]; rfl
    simp only [hcsep, if_true]
    rw [urlPathProcess_plain _ _ ?hsegs]
    case hsegs =>
      intro seg hseg
      exact ⟨fun x hx => hallr x (mem_splitSegs rest x seg hseg hx),
        (hdots seg hseg).1, (hdots seg hseg).2⟩
    rw [List.nil_append]
    rw [serializePath_splitSegs rest ?hbs]
    case hbs =>
      intro x hx heq
      have := hallr x hx
      subst heq
      revert this
      decide
    have hp : "file://" ++ p = String.mk ("file://".data ++ p.data) := rfl
    rw [hp, hd, hc]

theorem string_append_left_cancel (x a b : String) : x ++ a = x ++ b ↔ a = b := by
  constructor
  · intro h
    have hd : x.data ++ a.data = x.data ++ b.data := by
      have h1 := congrArg String.data h
      simpa [String.data_append] using h1
    have h2 := List.append_cancel_left hd
    cases a
    cases b
    exact congrArg String.mk (by simpa using h2)
  · intro h
    rw [h]

theorem except_bind_ok {α β : Type} (v : α) (f : α → Except JsError β) :
    (do let s ← Except.ok v; f s) = f v := rfl

/-- On an archive of well-formed paths, the reader's href-based `find` is
exact-path `find?`. -/
theorem findFirstMatch_wf (assets : List IArchiveAssetReference) (q : String)
    (hwf : ∀ e ∈ assets, isWFPath e.path = true) :
    findFirstMatch ("file://" ++ q) assets =
      Except.ok (assets.find? (fun e => e.path == q)) := by
  induction assets with
  | nil => simp [findFirstMatch, List.find?]
  | cons e rest ih =>
      have he : isWFPath e.path = true := hwf e (by simp)
      have hrest : ∀ x ∈ rest, isWFPath x.path = true := fun x hx => hwf x (by simp [hx])
      unfold findFirstMatch
      simp only [toPathString, toFileUrl_wf e.path he]
      rw [except_bind_ok]
      by_cases heq : e.path = q
      · subst heq
        rw [if_pos rfl, List.find?]
        have hbeq : (e.path == e.path) = true := by simp
        rw [hbeq]
        rfl
      · have hne : ¬("file://" ++ e.path = "file://" ++ q) := by
          rw [string_append_left_cancel]
          exact heq
        rw [if_neg hne, List.find?]
        have hbeq : (e.path == q) = false := by simp [heq]
        rw [hbeq]
        exact ih hrest

/-- Archive used to exercise duplicate-path lookup: two records share the
logical path `/a` (`"aGk="` is base64 of `hi`, `"eW8="` of `yo`). -/
def dupAssets : List IArchiveAssetReference :=
  [⟨"/a", "aGk="⟩, ⟨"/a", "eW8="⟩]

/-- C1: for every record `r` of an archive of well-formed logical paths,
`readFileSync(r.path)` returns exactly the base64-decoding of the contents
of the *earliest* record with that path (`find?` order), so later duplicates
are unreachable by exact-path lookup. -/
theorem c1_lookup_returns_first_decoded (assets : List IArchiveAssetReference)
    (hwf : ∀ e ∈ assets, isWFPath e.path = true)
    (r : IArchiveAssetReference) (hr : r ∈ assets) :
    ∃ r0, r0 ∈ assets ∧ r0.path = r.path ∧
      assets.find? (fun e => e.path == r.path) = some r0 ∧
      readFileSync assets (PathArg.str r.path) = base64decode r0.contents := by
  have hq : isWFPath r.path = true := hwf r hr
  have hfind : (assets.find? (fun e => e.path == r.path)).isSome := by
    rw [List.find?_isSome]
    exact ⟨r, hr, by simp⟩
  obtain ⟨r0, h0⟩ := Option.isSome_iff_exists.mp hfind
  refine ⟨r0, List.mem_of_find?_eq_some h0, ?_, h0, ?_⟩
  · have hpred := List.find?_some h0
    simpa using hpred
  · unfold readFileSync
    simp only [toPathString, toFileUrl_wf r.path hq]
    rw [except_bind_ok, findFirstMatch_wf assets r.path hwf, except_bind_ok, h0]

/-- C1 witness: in `dupAssets` the lookup of the duplicated path `/a` from
the *second* record returns the decoding of the *first* record. -/
theorem c1_witness :
    ∃ r0, r0 ∈ dupAssets ∧
      r0.path = (⟨"/a", "eW8="⟩ : IArchiveAssetReference).path ∧
      dupAssets.find? (fun e => e.path == (⟨"/a", "eW8="⟩ : IArchiveAssetReference).path) =
        some r0 ∧
      readFileSync dupAssets
          (PathArg.str (⟨"/a", "eW8="⟩ : IArchiveAssetReference).path) =
        base64decode r0.contents :=
  c1_lookup_returns_first_decoded dupAssets (by decide) ⟨"/a", "eW8="⟩ (by decide)

/-- C5: a lookup of a well-formed path matching no record of a well-formed
archive fails with `NotFound` carrying the normalized (file-URL) form of the
requested path in its message. -/
theorem c5_absent_notFound (assets : List IArchiveAssetReference) (p : String)
    (hwf : ∀ e ∈ assets, isWFPath e.path = true)
    (hp : isWFPath p = true)
    (habsent : ∀ e ∈ assets, e.path ≠ p) :
    readFileSync assets (PathArg.str p) =
      Except.error (JsError.notFound ("File not found: " ++ ("file://" ++ p))) := by
  unfold readFileSync
  simp only [toPathString, toFileUrl_wf p hp]
  rw [except_bind_ok, findFirstMatch_wf assets p hwf, except_bind_ok]
  have hnone : assets.find? (fun e => e.path == p) = none := by
    rw [List.find?_eq_none]
    intro x hx
    simp [habsent x hx]
  rw [hnone]

/-- C5 witness: `readFileSync("/does/not/exist")` on a one-record archive
fails with `NotFound` whose message carries the normalized path
`file:///does/not/exist`. -/
theorem c5_witness :
    readFileSync [⟨"/a", "aGk="⟩] (PathArg.str "/does/not/exist") =
      Except.error (JsError.notFound "File not found: file:///does/not/exist") :=
  c5_absent_notFound [⟨"/a", "aGk="⟩] "/does/not/exist" (by decide) (by decide)
    (by decide)

/-- C6: the asynchronous operations wrap the synchronous ones: they never
throw at call time (outer layer always `ok`), and the promise settles with
exactly the synchronous result — resolution with the same bytes/text, or
rejection with the same error (`NotFound` included). -/
theorem c6_async_wraps_sync (assets : List IArchiveAssetReference) (p : PathArg) :
    readFile assets p = Except.ok (readFileSync assets p) ∧
      readTextFile assets p = Except.ok (readTextFileSync assets p) := by
  constructor
  · unfold readFile
    rcases h : readFileSync assets p with e | v <;> simp
  · unfold readTextFile readFile readTextFileSync
    rcases h : readFileSync assets p with e | v <;> simp [h] <;> rfl

/-- Archive with one record whose decoded contents `[0xFF]` are not valid
UTF-8 (`"/w=="` is base64 of the single byte `0xFF`). -/
def badUtf8Assets : List IArchiveAssetReference := [⟨"/a", "/w=="⟩]

/-- C7 counterexample: a record whose decoded contents are not valid UTF-8
for which `readTextFileSync` *succeeds* with the U+FFFD substitution string
instead of producing an `EncodingError`. -/
theorem c7_counterexample :
    isUtf8 [255] = false ∧
      readFileSync badUtf8Assets (PathArg.str "/a") = Except.ok [255] ∧
      readTextFileSync badUtf8Assets (PathArg.str "/a") =
        Except.ok (String.mk [fffd]) ∧
      ∀ e : JsError, readTextFileSync badUtf8Assets (PathArg.str "/a") ≠
        Except.error e := by
  refine ⟨by decide, by decide, by decide, ?_⟩
  intro e
  have h : readTextFileSync badUtf8Assets (PathArg.str "/a") =
      Except.ok (String.mk [fffd]) := by decide
  rw [h]
  simp

/-- C7 amended: `readTextFileSync` decodes with a standard UTF-8 decoder in
replacement (non-fatal) mode — whenever the byte-level lookup succeeds, text
decoding succeeds too, substituting U+FFFD for malformed sequences; no
`EncodingError` is raised. -/
theorem c7_text_decode_replacement (assets : List IArchiveAssetReference)
    (p : PathArg) (bytes : List Nat)
    (h : readFileSync assets p = Except.ok bytes) :
    readTextFileSync assets p = Except.ok (decodeBuffer bytes) := by
  unfold readTextFileSync
  rw [h]
  rfl

/-- C7 amended witness: on the invalid-UTF-8 record the text read succeeds
with the replacement-mode decoding of `[0xFF]`. -/
theorem c7_witness :
    readTextFileSync badUtf8Assets (PathArg.str "/a") =
      Except.ok (decodeBuffer [255]) :=
  c7_text_decode_replacement badUtf8Assets (PathArg.str "/a") [255] (by decide)

/-- C10: a string argument that is not an absolute POSIX path makes
`readFileSync` throw the `toFileUrl` `TypeError` — for *every* archive, so
before any record is compared — and that error is not `NotFound`; a `URL`
argument is accepted and compared by its href. -/
theorem c10_nonabsolute_typeError (assets : List IArchiveAssetReference)
    (s : String) (h : isAbsolutePosix s = false) :
    readFileSync assets (PathArg.str s) =
        Except.error (JsError.typeError "Must be an absolute path.") ∧
      (∀ m, JsError.typeError "Must be an absolute path." ≠ JsError.notFound m) ∧
      (∀ href, toPathString (PathArg.url href) = Except.ok href) := by
  refine ⟨?_, fun m => by simp, fun href => rfl⟩
  have ht : toPathString (PathArg.str s) =
      Except.error (JsError.typeError "Must be an absolute path.") := by
    show toFileUrl s = _
    unfold toFileUrl
    rw [h]
    rfl
  unfold readFileSync
  rw [ht]
  rfl

/-- C10 witness: the relative path `relative.txt` produces the `TypeError`
(and not `NotFound`) on a nonempty archive. -/
theorem c10_witness :
    readFileSync [⟨"/a", "aGk="⟩] (PathArg.str "relative.txt") =
        Except.error (JsError.typeError "Must be an absolute path.") ∧
      (∀ m, JsError.typeError "Must be an absolute path." ≠ JsError.notFound m) ∧
      (∀ href, toPathString (PathArg.url href) = Except.ok href) :=
  c10_nonabsolute_typeError [⟨"/a", "aGk="⟩] "relative.txt" (by decide)

/-! ## `std/path` posix `resolve` / `relative`

`relative(from, to)` resolves both arguments (`resolve` falls back to
`Deno.cwd()` for non-absolute input and normalizes `.`/`..`/`//`), finds the
longest common segment prefix, and climbs with `..` segments.  The model
implements `normalizeString`'s segment semantics directly and `relative`'s
index scan as the common-segment-prefix computation it performs. -/

/-- Split a posix path on `/` (always at least one segment). -/
def splitSlash : List Char → List (List Char)
  | [] => [[]]
  | c :: rest =>
    if c = '/' then [] :: splitSlash rest
    else
      match splitSlash rest with
      | s :: ss => (c :: s) :: ss
      | [] => [[c]]

/-- Join segments with `/`. -/
def joinSlash : List (List Char) → List Char
  | [] => []
  | [s] => s
  | s :: rest => s ++ '/' :: joinSlash rest

/-- Segment step of `normalizeString`: skip empty and `.` segments, pop on
`..` (or keep climbing when already above root and `allowAboveRoot`). -/
def normalizeSegs (allowAboveRoot : Bool) (acc : List (List Char)) :
    List (List Char) → List (List Char)
  | [] => acc
  | s :: rest =>
    if s = [] || s = ['.'] then normalizeSegs allowAboveRoot acc rest
    else if s = ['.', '.'] then
      match acc.getLast? with
      | some t =>
        if t = ['.', '.'] then
          normalizeSegs allowAboveRoot
            (if allowAboveRoot then acc ++ [['.', '.']] else acc) rest
        else normalizeSegs allowAboveRoot acc.dropLast rest
      | none =>
        normalizeSegs allowAboveRoot (if allowAboveRoot then [['.', '.']] else []) rest
    else normalizeSegs allowAboveRoot (acc ++ [s]) rest

/-- `path.posix.resolve` with a single path argument: prepend `Deno.cwd()`
when the argument is not absolute, then normalize. -/
def resolve1 (processCwd p : String) : String :=
  let (joined, isAbs) :=
    if isAbsolutePosix p then (p.data, true)
    else if p.data = [] then (processCwd.data, isAbsolutePosix processCwd)
    else (processCwd.data ++ '/' :: p.data, isAbsolutePosix processCwd)
  let body := joinSlash (normalizeSegs (!isAbs) [] (splitSlash joined))
  if isAbs then String.mk ('/' :: body)
  else if body ≠ [] then String.mk body else "."

/-- Length of the common prefix of two segment lists. -/
def commonPrefixLen : List (List Char) → List (List Char) → Nat
  | a :: as, b :: bs => if a = b then 1 + commonPrefixLen as bs else 0
  | _, _ => 0

/-- `path.posix.relative`. -/
def posixRelative (processCwd f t : String) : String :=
  if f = t then ""
  else
    let fr := (resolve1 processCwd f).data
    let tr := (resolve1 processCwd t).data
    if fr = tr then ""
    else
      let fsg := (splitSlash fr).filter (fun s => s ≠ [])
      let tsg := (splitSlash tr).filter (fun s => s ≠ [])
      let k := commonPrefixLen fsg tsg
      String.mk (joinSlash (List.replicate (fsg.length - k) ['.', '.'] ++ tsg.drop k))

/-! ## Asset discovery (`generateAssetReferences` in `mod.ts`) -/

/-- A `WalkEntry` as produced by `std/fs.expandGlob` (the fields the
discoverer reads). -/
structure WalkEntry where
  path : String
  isFile : Bool
  isSymlink : Bool
deriving DecidableEq

/-- The discoverer's external collaborators: per-glob filesystem
enumeration, file reads, and the process working directory. -/
structure FileSystem where
  /-- `std/fs.expandGlob(glob, { root, globstar: true })` results for a glob
  and a root, in filesystem-enumeration order. -/
  listGlob : String → String → List WalkEntry
  /-- `Deno.readFile` contents of a path.  (An I/O failure would abort the
  whole sequence — spec §4.1; the claims here concern successful reads.) -/
  readFile : String → List Nat
  /-- `Deno.cwd()`, consulted by `path.resolve` on non-absolute input. -/
  processCwd : String

/-- The discoverer's per-entry guard: regular files only, no symlinks. -/
def qualifying (e : WalkEntry) : Bool := e.isFile && !e.isSymlink

/-- Inner loop of `generateAssetReferences` over one glob's entries,
threading the `files` dedup memory; yields
`{ systemPath, asset: { path: fromFileUrl("file:///" + rel), contents:
base64(readFile) } }` for each qualifying, not-yet-seen entry. -/
def genEntries (fs : FileSystem) (cwd : String) (allowDuplicates : Bool) :
    List WalkEntry → List String → Except JsError (List IAssetReference × List String)
  | [], seen => Except.ok ([], seen)
  | e :: rest, seen =>
    if e.isFile && !e.isSymlink && (allowDuplicates || !seen.contains e.path) then do
      let seen2 := seen ++ [e.path]
      let rel := posixRelative fs.processCwd cwd e.path
      let contents := fs.readFile e.path
      let p ← fromFileUrl ("file:///" ++ rel)
      let (out, seen3) ← genEntries fs cwd allowDuplicates rest seen2
      Except.ok (⟨e.path, ⟨p, base64encode contents⟩⟩ :: out, seen3)
    else genEntries fs cwd allowDuplicates rest seen

/-- Outer loop of `generateAssetReferences` over the glob list. -/
def genGlobs (fs : FileSystem) (cwd : String) (allowDuplicates : Bool) :
    List String → List String → Except JsError (List IAssetReference × List String)
  | [], seen => Except.ok ([], seen)
  | g :: gs, seen => do
    let (out1, seen1) ← genEntries fs cwd allowDuplicates (fs.listGlob g cwd) seen
    let (out2, seen2) ← genGlobs fs cwd allowDuplicates gs seen1
    Except.ok (out1 ++ out2, seen2)

/-- `generateAssetReferences(cwd, globs, allowDuplicates)` as the list of
all yielded references (the async generator run to completion). -/
def generateAssetReferences (fs : FileSystem) (cwd : String) (globs : List String)
    (allowDuplicates : Bool) : Except JsError (List IAssetReference) := do
  let (out, _) ← genGlobs fs cwd allowDuplicates globs []
  Except.ok out

/-- All qualifying matches, one per listing occurrence, in pattern order
(the stream `allowDuplicates = true` yields). -/
def qualifyingPaths (fs : FileSystem) (cwd : String) (globs : List String) :
    List String :=
  ((globs.map (fun g => (fs.listGlob g cwd).filter qualifying)).flatten).map
    WalkEntry.path

/-- Keep the first occurrence of each path not yet in `seen` (the dedup the
`files` array performs). -/
def firstOnce (seen : List String) : List String → List String
  | [] => []
  | p :: rest =>
    if seen.contains p then firstOnce seen rest
    else p :: firstOnce (seen ++ [p]) rest

theorem firstOnce_not_mem (l : List String) :
    ∀ seen p, p ∈ seen → p ∉ firstOnce seen l := by
  induction l with
  | nil => intro seen p _ h; simp [firstOnce] at h
  | cons q rest ih =>
      intro seen p hp
      unfold firstOnce
      by_cases hq : seen.contains q = true
      · rw [if_pos hq]
        exact ih seen p hp
      · rw [if_neg hq]
        intro hmem
        rcases List.mem_cons.mp hmem with rfl | hmem2
        · exact hq (List.elem_eq_true_of_mem hp)
        · exact ih (seen ++ [q]) p (List.mem_append_left _ hp) hmem2

theorem firstOnce_count_one (l : List String) :
    ∀ seen p, p ∉ seen → p ∈ l → (firstOnce seen l).count p = 1 := by
  induction l with
  | nil => intro seen p _ h; simp at h
  | cons q rest ih =>
      intro seen p hps hpl
      unfold firstOnce
      by_cases hq : seen.contains q = true
      · rw [if_pos hq]
        have hq_mem : q ∈ seen := List.mem_of_elem_eq_true hq
        have hne : p ≠ q := fun h => hps (h ▸ hq_mem)
        have hpr : p ∈ rest := by
          rcases List.mem_cons.mp hpl with rfl | h
          · exact absurd rfl hne
          · exact h
        exact ih seen p hps hpr
      · rw [if_neg hq]
        by_cases hpq : p = q
        · subst hpq
          rw [List.count_cons_self]
          have : p ∉ firstOnce (seen ++ [p]) rest :=
            firstOnce_not_mem rest _ p (List.mem_append_right _ (by simp))
          rw [List.count_eq_zero_of_not_mem this]
        · have hcount : (q :: firstOnce (seen ++ [q]) rest).count p =
              (firstOnce (seen ++ [q]) rest).count p :=
            List.count_cons_of_ne hpq _
          rw [hcount]
          refine ih (seen ++ [q]) p ?_ ?_
          · intro hmem
            rcases List.mem_append.mp hmem with h | h
            · exact hps h
            · simp at h
              exact hpq h
          · rcases List.mem_cons.mp hpl with rfl | h
            · exact absurd rfl hpq
            · exact h

theorem firstOnce_nodup (l : List String) : ∀ seen, (firstOnce seen l).Nodup := by
  induction l with
  | nil => intro seen; simp [firstOnce]
  | cons q rest ih =>
      intro seen
      unfold firstOnce
      by_cases hq : seen.contains q = true
      · rw [if_pos hq]
        exact ih seen
      · rw [if_neg hq]
        refine List.nodup_cons.mpr ⟨?_, ih (seen ++ [q])⟩
        exact firstOnce_not_mem rest _ q (List.mem_append_right _ (by simp))

theorem firstOnce_cons (seen : List String) (q : String) (rest : List String) :
    firstOnce seen (q :: rest) =
      if seen.contains q then firstOnce seen rest
      else q :: firstOnce (seen ++ [q]) rest := rfl

theorem firstOnce_append (l1 l2 : List String) :
    ∀ seen, firstOnce seen (l1 ++ l2) =
      firstOnce seen l1 ++ firstOnce (seen ++ firstOnce seen l1) l2 := by
  induction l1 with
  | nil => intro seen; simp [firstOnce]
  | cons q rest ih =>
      intro seen
      by_cases hq : seen.contains q = true
      · simp only [List.cons_append, firstOnce_cons, hq, if_true]
        exact ih seen
      · simp only [List.cons_append, firstOnce_cons, hq, Bool.false_eq_true, if_false,
          List.append_assoc, List.singleton_append]
        rw [ih (seen ++ [q])]
        simp

theorem except_bind_error {α β : Type} (e : JsError) (f : α → Except JsError β) :
    (do let x ← Except.error e; f x) = Except.error e := rfl

/-- Everything the inner discovery loop guarantees: the dedup memory grows by
exactly the yielded system paths; every yielded reference carries the
base64-encoded file contents and the `fromFileUrl`-normalized logical path;
and the stream of yielded system paths is the qualifying entries (all of
them when duplicates are allowed, their first occurrences otherwise). -/
theorem genEntries_spec (fs : FileSystem) (cwd : String) (dup : Bool) :
    ∀ entries seen out seen',
      genEntries fs cwd dup entries seen = Except.ok (out, seen') →
      seen' = seen ++ out.map IAssetReference.systemPath ∧
      (∀ r ∈ out,
        r.asset.contents = base64encode (fs.readFile r.systemPath) ∧
        fromFileUrl ("file:///" ++ posixRelative fs.processCwd cwd r.systemPath) =
          Except.ok r.asset.path) ∧
      (dup = true → out.map IAssetReference.systemPath =
        (entries.filter qualifying).map WalkEntry.path) ∧
      (dup = false → out.map IAssetReference.systemPath =
        firstOnce seen ((entries.filter qualifying).map WalkEntry.path)) := by
  intro entries
  induction entries with
  | nil =>
      intro seen out seen' h
      simp only [genEntries] at h
      injection h with h2
      injection h2 with hout hseen
      subst hout
      subst hseen
      refine ⟨by simp, by simp, ?_, ?_⟩
      · intro _; simp
      · intro _; simp [firstOnce]
  | cons e rest ih =>
      intro seen out seen' h
      unfold genEntries at h
      by_cases hcond : (e.isFile && !e.isSymlink && (dup || !seen.contains e.path)) = true
      · rw [if_pos hcond] at h
        dsimp only [] at h
        rcases hurl : fromFileUrl ("file:///" ++ posixRelative fs.processCwd cwd e.path)
          with err | p
        · rw [hurl, except_bind_error] at h
          exact absurd h (by simp)
        · rw [hurl, except_bind_ok] at h
          rcases hrec : genEntries fs cwd dup rest (seen ++ [e.path]) with err | pair
          · rw [hrec, except_bind_error] at h
            exact absurd h (by simp)
          · obtain ⟨out1, seen3⟩ := pair
            rw [hrec] at h
            rw [except_bind_ok] at h
            injection h with h2
            injection h2 with hout hseen
            subst hout
            subst hseen
            obtain ⟨hs, helem, hdupT, hdupF⟩ := ih (seen ++ [e.path]) out1 seen3 hrec
            have hqual : qualifying e = true := by
              simp only [qualifying]
              simp only [Bool.and_eq_true] at hcond ⊢
              exact hcond.1
            refine ⟨?_, ?_, ?_, ?_⟩
            · rw [hs]
              simp
            · intro r hr
              rcases List.mem_cons.mp hr with rfl | hr2
              · exact ⟨rfl, hurl⟩
              · exact helem r hr2
            · intro hd
              simp only [List.map_cons, List.filter_cons, hqual, if_pos, List.map_cons]
              rw [hdupT hd]
            · intro hd
              subst hd
              have hcont : seen.contains e.path = false := by
                simp only [Bool.and_eq_true, Bool.or_eq_true, Bool.not_eq_true'] at hcond
                rcases hcond.2 with h | h
                · exact absurd h (by simp)
                · exact h
              simp only [List.map_cons, List.filter_cons, hqual, if_pos, List.map_cons]
              rw [firstOnce_cons, if_neg (by rw [hcont]; simp), hdupF rfl]
      · rw [if_neg hcond] at h
        obtain ⟨hs, helem, hdupT, hdupF⟩ := ih seen out seen' h
        refine ⟨hs, helem, ?_, ?_⟩
        · intro hd
          subst hd
          have hqual : qualifying e = false := by
            simp only [Bool.true_or, Bool.and_true] at hcond
            simp only [qualifying, Bool.not_eq_true] at hcond ⊢
            exact hcond
          simp only [List.filter_cons, hqual, Bool.false_eq_true, if_false]
          exact hdupT rfl
        · intro hd
          subst hd
          by_cases hqual : qualifying e = true
          · have hcont : seen.contains e.path = true := by
              simp only [qualifying, Bool.and_eq_true] at hqual
              by_contra hc
              simp only [Bool.not_eq_true] at hc
              exact hcond (by simp_all)
            simp only [List.filter_cons, hqual, if_pos, List.map_cons]
            rw [firstOnce_cons, if_pos hcont]
            exact hdupF rfl
          · simp only [Bool.not_eq_true] at hqual
            simp only [List.filter_cons, hqual, Bool.false_eq_true, if_false]
            exact hdupF rfl

/-- `genEntries_spec` lifted over the glob list. -/
theorem genGlobs_spec (fs : FileSystem) (cwd : String) (dup : Bool) :
    ∀ globs seen out seen',
      genGlobs fs cwd dup globs seen = Except.ok (out, seen') →
      seen' = seen ++ out.map IAssetReference.systemPath ∧
      (∀ r ∈ out,
        r.asset.contents = base64encode (fs.readFile r.systemPath) ∧
        fromFileUrl ("file:///" ++ posixRelative fs.processCwd cwd r.systemPath) =
          Except.ok r.asset.path) ∧
      (dup = true → out.map IAssetReference.systemPath =
        qualifyingPaths fs cwd globs) ∧
      (dup = false → out.map IAssetReference.systemPath =
        firstOnce seen (qualifyingPaths fs cwd globs)) := by
  intro globs
  induction globs with
  | nil =>
      intro seen out seen' h
      simp only [genGlobs] at h
      injection h with h2
      injection h2 with hout hseen
      subst hout
      subst hseen
      exact ⟨by simp, by simp, fun _ => by simp [qualifyingPaths],
        fun _ => by simp [qualifyingPaths, firstOnce]⟩
  | cons g gs ih =>
      intro seen out seen' h
      unfold genGlobs at h
      rcases h1 : genEntries fs cwd dup (fs.listGlob g cwd) seen with err | pair1
      · rw [h1, except_bind_error] at h
        exact absurd h (by simp)
      · obtain ⟨out1, seen1⟩ := pair1
        rw [h1, except_bind_ok] at h
        dsimp only [] at h
        rcases h2 : genGlobs fs cwd dup gs seen1 with err | pair2
        · rw [h2, except_bind_error] at h
          exact absurd h (by simp)
        · obtain ⟨out2, seen2⟩ := pair2
          rw [h2, except_bind_ok] at h
          injection h with h3
          injection h3 with hout hseen
          subst hout
          subst hseen
          obtain ⟨hs1, helem1, hdupT1, hdupF1⟩ := genEntries_spec fs cwd dup _ _ _ _ h1
          obtain ⟨hs2, helem2, hdupT2, hdupF2⟩ := ih seen1 out2 seen2 h2
          have hqp : qualifyingPaths fs cwd (g :: gs) =
              ((fs.listGlob g cwd).filter qualifying).map WalkEntry.path ++
                qualifyingPaths fs cwd gs := by
            simp [qualifyingPaths]
          refine ⟨?_, ?_, ?_, ?_⟩
          · rw [hs2, hs1]
            simp
          · intro r hr
            rcases List.mem_append.mp hr with h | h
            · exact helem1 r h
            · exact helem2 r h
          · intro hd
            rw [List.map_append, hdupT1 hd, hdupT2 hd, hqp]
          · intro hd
            rw [List.map_append, hdupF1 hd, hdupF2 hd, hqp, hs1, hdupF1 hd,
              firstOnce_append]

theorem count_map_eq_filter_length (out : List IAssetReference) (F : String) :
    (out.map IAssetReference.systemPath).count F =
      (out.filter (fun r => r.systemPath == F)).length := by
  induction out with
  | nil => simp
  | cons r rest ih =>
      by_cases h : r.systemPath = F
      · simp [List.count_cons, List.filter_cons, h, ih]
      · have h1 : (r.systemPath == F) = false := by simp [h]
        have h2 : (F == r.systemPath) = false := by
          simp only [beq_eq_false_iff_ne, ne_eq]
          exact fun hh => h hh.symm
        simp [List.count_cons, List.filter_cons, h1, h2, ih]

/-- C2: for a file `F` qualifying under some pattern (read as bytes `B`),
discovery with `allowDuplicates = false` yields exactly one reference for
`F`, and base64-decoding its record contents gives back `B`. -/
theorem c2_roundtrip (fs : FileSystem) (cwd : String) (globs : List String)
    (out : List IAssetReference) (F : String) (B : List Nat)
    (hgen : generateAssetReferences fs cwd globs false = Except.ok out)
    (hF : F ∈ qualifyingPaths fs cwd globs)
    (hread : fs.readFile F = B) (hB : ∀ b ∈ B, b < 256) :
    (out.filter (fun r => r.systemPath == F)).length = 1 ∧
      ∀ r ∈ out, r.systemPath = F →
        base64decode r.asset.contents = Except.ok B := by
  unfold generateAssetReferences at hgen
  rcases h1 : genGlobs fs cwd false globs [] with err | pair
  · rw [h1, except_bind_error] at hgen
    exact absurd hgen (by simp)
  · obtain ⟨out1, seen1⟩ := pair
    rw [h1, except_bind_ok] at hgen
    injection hgen with hout
    subst hout
    obtain ⟨_, helem, _, hdupF⟩ := genGlobs_spec fs cwd false globs [] out1 seen1 h1
    constructor
    · rw [← count_map_eq_filter_length, hdupF rfl]
      exact firstOnce_count_one _ [] F (by simp) hF
    · intro r hr hrF
      have hc := (helem r hr).1
      rw [hc, hrF, hread]
      exact base64_roundtrip B hB

/-- C4: with `allowDuplicates = false` the yielded system paths are exactly
the first occurrences of the qualifying matches — duplicate-free, one per
distinct file that matches at all, even across overlapping patterns — while
`allowDuplicates = true` yields every qualifying match, once per matching
pattern occurrence, in order. -/
theorem c4_dedup (fs : FileSystem) (cwd : String) (globs : List String)
    (out out2 : List IAssetReference)
    (hfalse : generateAssetReferences fs cwd globs false = Except.ok out)
    (htrue : generateAssetReferences fs cwd globs true = Except.ok out2) :
    out.map IAssetReference.systemPath =
        firstOnce [] (qualifyingPaths fs cwd globs) ∧
      (out.map IAssetReference.systemPath).Nodup ∧
      (∀ p ∈ qualifyingPaths fs cwd globs,
        (out.map IAssetReference.systemPath).count p = 1) ∧
      out2.map IAssetReference.systemPath = qualifyingPaths fs cwd globs := by
  unfold generateAssetReferences at hfalse htrue
  rcases h1 : genGlobs fs cwd false globs [] with err | pair
  · rw [h1, except_bind_error] at hfalse
    exact absurd hfalse (by simp)
  · obtain ⟨o1, s1⟩ := pair
    rw [h1, except_bind_ok] at hfalse
    injection hfalse with hout
    subst hout
    rcases h2 : genGlobs fs cwd true globs [] with err | pair2
    · rw [h2, except_bind_error] at htrue
      exact absurd htrue (by simp)
    · obtain ⟨o2, s2⟩ := pair2
      rw [h2, except_bind_ok] at htrue
      injection htrue with hout2
      subst hout2
      obtain ⟨_, _, _, hdupF⟩ := genGlobs_spec fs cwd false globs [] o1 s1 h1
      obtain ⟨_, _, hdupT, _⟩ := genGlobs_spec fs cwd true globs [] o2 s2 h2
      refine ⟨hdupF rfl, ?_, ?_, hdupT rfl⟩
      · rw [hdupF rfl]
        exact firstOnce_nodup _ []
      · intro p hp
        rw [hdupF rfl]
        exact firstOnce_count_one _ [] p (by simp) hp

/-! ## Logical path shape (claim C8)

`fromFileUrl("file:///" + rel)` is the plain `"/" + rel` exactly when `rel`
survives URL parsing untouched: printable ASCII without the characters the
URL machinery treats specially (`%` escapes, `?`/`#` terminators, `\`
separators, the path percent-encode set, `|`/`:` drive quirks) and without
`.`/`..` segments or empty segments. -/

/-- Characters that pass through the URL path parser and
`decodeURIComponent` unchanged. -/
def plainUrlChar (c : Char) : Bool :=
  0x21 ≤ c.toNat && c.toNat ≤ 0x7E &&
    !(c.toNat == 0x22 || c.toNat == 0x23 || c.toNat == 0x25 || c.toNat == 0x3A ||
      c.toNat == 0x3C || c.toNat == 0x3E || c.toNat == 0x3F || c.toNat == 0x5C ||
      c.toNat == 0x60 || c.toNat == 0x7B || c.toNat == 0x7C || c.toNat == 0x7D)

/-- A relative path whose file-URL round trip is the identity: plain
characters, and no empty, `.` or `..` segments. -/
def isSafeRel (s : String) : Bool :=
  s.data.all plainUrlChar &&
    (splitSegs s.data).all (fun seg =>
      !seg.isEmpty && !(isSingleDotSeg seg || isDoubleDotSeg seg))

/-- The spec's shape of a logical archive path: begins with `/`, `/`
separators only (no backslash), no empty segments (hence no trailing slash),
no `.` or `..` segments. -/
def archivePathShape (s : String) : Bool :=
  match s.data with
  | c :: rest =>
    c == '/' && rest.all (fun d => d != '\\') &&
      (splitSegs rest).all (fun seg =>
        !seg.isEmpty && !(isSingleDotSeg seg || isDoubleDotSeg seg))
  | [] => false

theorem plain_pctEncode (l : List Char) (h : ∀ c ∈ l, plainUrlChar c) :
    (l.map pctEncodeChar).flatten = l := by
  apply flatten_map_singleton
  intro c hc
  have hcp := h c hc
  simp only [plainUrlChar, Bool.and_eq_true, Bool.not_eq_true', Bool.or_eq_false_iff,
    beq_eq_false_iff_ne, ne_eq, decide_eq_true_eq] at hcp
  have hne : inPathEncodeSet c = false := by
    simp only [inPathEncodeSet, Bool.or_eq_false_iff, decide_eq_false_iff_not,
      beq_eq_false_iff_ne, ne_eq]
    omega
  simp [pctEncodeChar, hne]

theorem plain_not_winDrive (seg : List Char) (h : ∀ c ∈ seg, plainUrlChar c) :
    isWinDrive seg = false := by
  match seg with
  | [] => rfl
  | [a] => rfl
  | [a, b] =>
      have hb := h b (by simp)
      simp only [plainUrlChar, Bool.and_eq_true, Bool.not_eq_true',
        Bool.or_eq_false_iff, beq_eq_false_iff_ne, ne_eq, decide_eq_true_eq] at hb
      simp only [isWinDrive, Bool.and_eq_false_iff]
      right
      simp only [Bool.or_eq_false_iff, beq_eq_false_iff_ne, ne_eq]
      constructor
      · intro hc
        subst hc
        simp at hb
      · intro hc
        subst hc
        simp at hb
  | a :: b :: c :: t => rfl

theorem urlPathProcess_id (segs : List (List Char)) (acc : List (List Char))
    (h : ∀ seg ∈ segs, (seg.map pctEncodeChar).flatten = seg ∧
      isSingleDotSeg seg = false ∧ isDoubleDotSeg seg = false ∧
      isWinDrive seg = false) :
    urlPathProcess acc segs = acc ++ segs := by
  induction segs generalizing acc with
  | nil => simp [urlPathProcess]
  | cons seg rest ih =>
      obtain ⟨hbuf, hsingle, hdouble, hwd⟩ := h seg (by simp)
      unfold urlPathProcess
      simp only [hbuf, hdouble, hsingle, if_false, Bool.false_eq_true, hwd,
        Bool.and_false, if_false]
      rw [ih _ (fun s hs => h s (by simp [hs]))]
      simp

theorem takeWhile_all {α : Type} (p : α → Bool) (l : List α)
    (h : ∀ c ∈ l, p c = true) : l.takeWhile p = l := by
  induction l with
  | nil => simp
  | cons c rest ih =>
      rw [List.takeWhile_cons, h c (by simp), ih (fun x hx => h x (by simp [hx]))]
      simp

theorem fixLonePct_no_pct (l : List Char) (h : ∀ c ∈ l, c ≠ '%') :
    fixLonePct l = l := by
  induction l with
  | nil => rfl
  | cons c rest ih =>
      have hc : (c == '%') = false := by simp [h c (by simp)]
      unfold fixLonePct
      rw [hc]
      simp only [Bool.false_eq_true, if_false]
      rw [ih (fun x hx => h x (by simp [hx]))]

theorem decURIFuel_no_pct (fuel : Nat) :
    ∀ l : List Char, l.length < fuel → (∀ c ∈ l, c ≠ '%') →
      decodeURIComponentFuel fuel l = Except.ok l := by
  induction fuel with
  | zero => intro l hl _; omega
  | succ n ih =>
      intro l hl h
      cases l with
      | nil => rfl
      | cons c rest =>
          have hc : ¬(c = '%') := h c (by simp)
          unfold decodeURIComponentFuel
          rw [if_neg hc]
          rw [ih rest (by simp at hl; omega) (fun x hx => h x (by simp [hx]))]
          rfl

theorem decodeURIComponent_no_pct (l : List Char) (h : ∀ c ∈ l, c ≠ '%') :
    decodeURIComponent l = Except.ok l :=
  decURIFuel_no_pct (l.length + 1) l (by omega) h

/-- On a safe relative path the discoverer's logical-path computation is
exactly `"/" ++ rel`. -/
theorem fromFileUrl_safeRel (rel : String) (h : isSafeRel rel = true) :
    fromFileUrl ("file:///" ++ rel) = Except.ok ("/" ++ rel) := by
  simp only [isSafeRel, Bool.and_eq_true, List.all_eq_true] at h
  obtain ⟨hplain, hsegs⟩ := h
  have hdata : ("file:///" ++ rel).data =
      'f' :: 'i' :: 'l' :: 'e' :: ':' :: '/' :: '/' :: '/' :: rel.data := by
    have h1 : ("file:///" ++ rel).data = "file:///".data ++ rel.data :=
      String.data_append _ _
    rw [h1]
    rfl
  unfold fromFileUrl
  rw [hdata]
  have hpre : ("file://".data).isPrefixOf
      ('f' :: 'i' :: 'l' :: 'e' :: ':' :: '/' :: '/' :: '/' :: rel.data) = true := by
    rfl
  rw [if_pos hpre]
  dsimp only []
  have hdrop : List.drop 7 ('f' :: 'i' :: 'l' :: 'e' :: ':' :: '/' :: '/' :: '/' :: rel.data) =
      '/' :: rel.data := rfl
  rw [hdrop]
  have htake : ('/' :: rel.data).takeWhile (fun c => !(c == '?' || c == '#')) =
      '/' :: rel.data := by
    apply takeWhile_all
    intro c hc
    rcases List.mem_cons.mp hc with rfl | hc2
    · rfl
    · have hcp := hplain c hc2
      simp only [plainUrlChar, Bool.and_eq_true, Bool.not_eq_true',
        Bool.or_eq_false_iff, beq_eq_false_iff_ne, ne_eq, decide_eq_true_eq] at hcp
      simp only [Bool.not_eq_true', Bool.or_eq_false_iff, beq_eq_false_iff_ne, ne_eq]
      constructor
      · intro hq
        subst hq
        simp at hcp
      · intro hq
        subst hq
        simp at hcp
  rw [htake]
  have hparse : parseUrlPath ('/' :: rel.data) = splitSegs rel.data := by
    unfold parseUrlPath
    have hsep : isUrlSep '/' = true := rfl
    simp only [hsep, if_true]
    rw [urlPathProcess_id _ _ ?hconds]
    case hconds =>
      intro seg hseg
      have hsegsafe : ∀ c ∈ seg, plainUrlChar c := fun c hc =>
        hplain c (mem_splitSegs rel.data c seg hseg hc)
      have hsinfo := hsegs seg hseg
      simp only [Bool.not_eq_true', Bool.or_eq_false_iff] at hsinfo
      exact ⟨plain_pctEncode seg hsegsafe, hsinfo.2.1, hsinfo.2.2,
        plain_not_winDrive seg hsegsafe⟩
    simp
  have hnobs : ∀ c ∈ rel.data, c ≠ '\\' := by
    intro c hc heq
    have hcp := hplain c hc
    subst heq
    simp [plainUrlChar] at hcp
  have hser : serializePath (splitSegs rel.data) = '/' :: rel.data :=
    serializePath_splitSegs rel.data hnobs
  have hnopct : ∀ c ∈ '/' :: rel.data, c ≠ '%' := by
    intro c hc heq
    rcases List.mem_cons.mp hc with rfl | hc2
    · simp at heq
    · have hcp := hplain c hc2
      subst heq
      simp [plainUrlChar] at hcp
  dsimp only []
  rw [hparse, hser, fixLonePct_no_pct _ hnopct, decodeURIComponent_no_pct _ hnopct]
  have hfin : ("/" ++ rel) = String.mk ('/' :: rel.data) := by
    apply congrArg String.mk
    exact String.data_append _ _
  rw [hfin]
  rfl

/-- Filesystem for the C8 counterexample: one file whose name contains a
literal `%41`. -/
def pctFS : FileSystem := {
  listGlob := fun _ _ => [⟨"/base/a%41.txt", true, false⟩],
  readFile := fun _ => [104, 105],
  processCwd := "/base" }

/-- C8 counterexample: for the file `/base/a%41.txt` under base `/base`,
the yielded record's logical path is `/aA.txt` — the URL machinery decodes
the literal `%41` — which differs from `"/" ++ relativePath`. -/
theorem c8_counterexample :
    generateAssetReferences pctFS "/base" ["*"] false =
        Except.ok [⟨"/base/a%41.txt", ⟨"/aA.txt", "aGk="⟩⟩] ∧
      posixRelative pctFS.processCwd "/base" "/base/a%41.txt" = "a%41.txt" ∧
      ("/aA.txt" : String) ≠ "/" ++ "a%41.txt" := by
  refine ⟨by decide, by decide, by decide⟩

/-- C8 amended: every yielded record's logical path is the percent-decoded
URL path of `file:///rel`; when `rel` (the file's path relative to the base
directory) consists of plain URL characters with no empty or dot segments,
that is exactly `"/" ++ rel`, and the path has the spec's shape — it begins
with `/`, uses `/` separators only, and has no `.`/`..` segments and no
trailing slash. -/
theorem c8_logical_path_shape (fs : FileSystem) (cwd : String)
    (globs : List String) (dup : Bool) (out : List IAssetReference)
    (hgen : generateAssetReferences fs cwd globs dup = Except.ok out)
    (r : IAssetReference) (hr : r ∈ out)
    (hsafe : isSafeRel (posixRelative fs.processCwd cwd r.systemPath) = true) :
    r.asset.path = "/" ++ posixRelative fs.processCwd cwd r.systemPath ∧
      archivePathShape r.asset.path = true := by
  unfold generateAssetReferences at hgen
  rcases h1 : genGlobs fs cwd dup globs [] with err | pair
  · rw [h1, except_bind_error] at hgen
    exact absurd hgen (by simp)
  · obtain ⟨out1, seen1⟩ := pair
    rw [h1, except_bind_ok] at hgen
    injection hgen with hout
    subst hout
    obtain ⟨_, helem, _, _⟩ := genGlobs_spec fs cwd dup globs [] out1 seen1 h1
    have hurl := (helem r hr).2
    rw [fromFileUrl_safeRel _ hsafe] at hurl
    have hpath : r.asset.path = "/" ++ posixRelative fs.processCwd cwd r.systemPath := by
      injection hurl with h2
      exact h2.symm
    refine ⟨hpath, ?_⟩
    rw [hpath]
    set rel := posixRelative fs.processCwd cwd r.systemPath with hrel
    simp only [isSafeRel, Bool.and_eq_true, List.all_eq_true] at hsafe
    obtain ⟨hplain, hsegs⟩ := hsafe
    have hdata : ("/" ++ rel).data = '/' :: rel.data := by
      rw [String.data_append]
      rfl
    unfold archivePathShape
    rw [hdata]
    simp only [Bool.and_eq_true, beq_iff_eq, List.all_eq_true]
    refine ⟨⟨trivial, ?_⟩, hsegs⟩
    intro d hd
    have hcp := hplain d hd
    simp only [plainUrlChar, Bool.and_eq_true, Bool.not_eq_true',
      Bool.or_eq_false_iff, beq_eq_false_iff_ne, ne_eq, decide_eq_true_eq] at hcp
    simp only [bne_iff_ne, ne_eq]
    intro heq
    subst heq
    simp at hcp

/-- Filesystem with an ordinary nested file name. -/
def plainFS : FileSystem := {
  listGlob := fun _ _ => [⟨"/base/dir/hello.txt", true, false⟩],
  readFile := fun _ => [104, 105],
  processCwd := "/base" }

/-- C8 witness: an ordinary file name round-trips to `"/" ++ rel` with the
archive path shape. -/
theorem c8_witness :
    (⟨"/base/dir/hello.txt", ⟨"/dir/hello.txt", "aGk="⟩⟩ : IAssetReference).asset.path =
        "/" ++ posixRelative plainFS.processCwd "/base"
          (⟨"/base/dir/hello.txt", ⟨"/dir/hello.txt", "aGk="⟩⟩ : IAssetReference).systemPath ∧
      archivePathShape
        (⟨"/base/dir/hello.txt", ⟨"/dir/hello.txt", "aGk="⟩⟩ : IAssetReference).asset.path =
        true :=
  c8_logical_path_shape plainFS "/base" ["*"] false
    [⟨"/base/dir/hello.txt", ⟨"/dir/hello.txt", "aGk="⟩⟩] (by decide)
    ⟨"/base/dir/hello.txt", ⟨"/dir/hello.txt", "aGk="⟩⟩ (by decide) (by decide)

/-- Filesystem where two globs both match the same file (and a directory is
also listed, to exercise the regular-file guard). -/
def overlapFS : FileSystem := {
  listGlob := fun g _ =>
    if g = "a/*" then
      [⟨"/base/a/f.txt", true, false⟩, ⟨"/base/a/sub", false, false⟩]
    else [⟨"/base/a/f.txt", true, false⟩],
  readFile := fun _ => [104, 105],
  processCwd := "/base" }

/-- C2 witness: the file `/base/a/f.txt`, matched by both patterns, is
yielded exactly once and its contents round-trip. -/
theorem c2_witness :
    (([⟨"/base/a/f.txt", ⟨"/a/f.txt", "aGk="⟩⟩] :
        List IAssetReference).filter (fun r => r.systemPath == "/base/a/f.txt")).length = 1 ∧
      ∀ r ∈ ([⟨"/base/a/f.txt", ⟨"/a/f.txt", "aGk="⟩⟩] : List IAssetReference),
        r.systemPath = "/base/a/f.txt" →
          base64decode r.asset.contents = Except.ok [104, 105] :=
  c2_roundtrip overlapFS "/base" ["a/*", "**/*.txt"]
    [⟨"/base/a/f.txt", ⟨"/a/f.txt", "aGk="⟩⟩] "/base/a/f.txt" [104, 105]
    (by decide) (by decide) (by decide) (by decide)

/-- C4 witness: with the two overlapping patterns of `overlapFS`,
`allowDuplicates = false` yields `/base/a/f.txt` once,
`allowDuplicates = true` yields it once per matching pattern. -/
theorem c4_witness :
    ([⟨"/base/a/f.txt", ⟨"/a/f.txt", "aGk="⟩⟩] :
        List IAssetReference).map IAssetReference.systemPath =
        firstOnce [] (qualifyingPaths overlapFS "/base" ["a/*", "**/*.txt"]) ∧
      (([⟨"/base/a/f.txt", ⟨"/a/f.txt", "aGk="⟩⟩] :
        List IAssetReference).map IAssetReference.systemPath).Nodup ∧
      (∀ p ∈ qualifyingPaths overlapFS "/base" ["a/*", "**/*.txt"],
        (([⟨"/base/a/f.txt", ⟨"/a/f.txt", "aGk="⟩⟩] :
          List IAssetReference).map IAssetReference.systemPath).count p = 1) ∧
      ([⟨"/base/a/f.txt", ⟨"/a/f.txt", "aGk="⟩⟩,
        ⟨"/base/a/f.txt", ⟨"/a/f.txt", "aGk="⟩⟩] :
          List IAssetReference).map IAssetReference.systemPath =
        qualifyingPaths overlapFS "/base" ["a/*", "**/*.txt"] :=
  c4_dedup overlapFS "/base" ["a/*", "**/*.txt"]
    [⟨"/base/a/f.txt", ⟨"/a/f.txt", "aGk="⟩⟩]
    [⟨"/base/a/f.txt", ⟨"/a/f.txt", "aGk="⟩⟩,
     ⟨"/base/a/f.txt", ⟨"/a/f.txt", "aGk="⟩⟩]
    (by decide) (by decide)

/-! ## `std/path.globToRegExp` (os = linux) and a matcher for its output

`globToRegExp` (default options: `extended = true`, `globstar = true`)
compiles a glob to an anchored JS regexp `^...$` built from literals,
character classes, `(?:...)` groups with `| * + ?`, negative lookahead
`(?!...)` (for `!(...)` extglob), `.` (for `?`), `[^/]*` (wildcard),
`/+`/`/*` separators, and the globstar piece `(?:[^/]*(?:/|$)+)*`.  The
reader's `expandGlob` calls `re.test(record.path)`; since the regexp is
anchored on both sides, `test` is whole-string matching of the body, which
is what `reTest` below decides.  `RE` is the abstract syntax of that output
dialect (`atEnd` is the inner `$` of the globstar piece; `nlook` the
negative lookahead). -/

inductive RE where
  | eps
  | atEnd
  | cls (neg : Bool) (rs : List (Nat × Nat))
  | cat (a b : RE)
  | alt (a b : RE)
  | star (a : RE)
  | nlook (a : RE)
deriving DecidableEq

/-- `(?:a)?` -/
def RE.opt (a : RE) : RE := RE.alt a RE.eps

/-- `(?:a)+` -/
def RE.plus (a : RE) : RE := RE.cat a (RE.star a)

/-- A literal character. -/
def reLit (c : Char) : RE := RE.cls false [(c.toNat, c.toNat)]

/-- Structural size, used to bound the matcher's recursion. -/
def RE.size : RE → Nat
  | RE.eps => 1
  | RE.atEnd => 1
  | RE.cls _ _ => 1
  | RE.cat a b => a.size + b.size + 1
  | RE.alt a b => a.size + b.size + 1
  | RE.star a => a.size + 1
  | RE.nlook a => a.size + 1

/-- Character-class membership (JS semantics: `[^...]` negates). -/
def classMatch (neg : Bool) (rs : List (Nat × Nat)) (c : Char) : Bool :=
  let hit := rs.any (fun p => p.1 ≤ c.toNat && c.toNat ≤ p.2)
  if neg then !hit else hit

/-- Backtracking matcher: all suffixes left after matching a prefix of `s`
by `re`.  A star iteration must consume input (JS stops empty-loop
repetition), so the recursion is bounded by `(length + 1) * (size + 1)`
steps, which the fuel argument supplies; the lookahead `nlook a` succeeds
exactly when `a` matches no prefix of the suffix. -/
def reRun : Nat → RE → List Char → List (List Char)
  | 0, _, _ => []
  | _ + 1, RE.eps, s => [s]
  | _ + 1, RE.atEnd, s => if s.isEmpty then [s] else []
  | _ + 1, RE.cls neg rs, s =>
    match s with
    | [] => []
    | c :: rest => if classMatch neg rs c then [rest] else []
  | fuel + 1, RE.cat a b, s =>
    ((reRun fuel a s).map (fun s2 => reRun fuel b s2)).flatten
  | fuel + 1, RE.alt a b, s => reRun fuel a s ++ reRun fuel b s
  | fuel + 1, RE.star a, s =>
    s :: (((reRun fuel a s).filter (fun s2 => s2.length < s.length)).map
      (fun s2 => reRun fuel (RE.star a) s2)).flatten
  | fuel + 1, RE.nlook a, s => if (reRun fuel a s).isEmpty then [s] else []

/-- `re.test(s)` for the anchored regexp `^re$`: whole-string match. -/
def reTest (re : RE) (s : List Char) : Bool :=
  (reRun ((s.length + 1) * (re.size + 1)) re s).contains ([] : List Char)

/-- `\d` -/
def digitRanges : List (Nat × Nat) := [(48, 57)]

/-- `\w` -/
def wordRanges : List (Nat × Nat) := [(48, 57), (65, 90), (95, 95), (97, 122)]

/-- `\s` (JS WhiteSpace ∪ LineTerminator). -/
def spaceRanges : List (Nat × Nat) :=
  [(9, 13), (32, 32), (0xA0, 0xA0), (0x1680, 0x1680), (0x2000, 0x200A),
   (0x2028, 0x2029), (0x202F, 0x202F), (0x205F, 0x205F), (0x3000, 0x3000),
   (0xFEFF, 0xFEFF)]

/-- `.` (anything but line terminators). -/
def dotRE : RE := RE.cls true [(10, 10), (13, 13), (0x2028, 0x2028), (0x2029, 0x2029)]

/-- `[^/]*` -/
def wildcardRE : RE := RE.star (RE.cls true [(47, 47)])

/-- `/+` -/
def sepRE : RE := RE.plus (reLit '/')

/-- `/*` -/
def sepMaybeRE : RE := RE.star (reLit '/')

/-- `(?:[^/]*(?:/|$)+)*` -/
def globstarRE : RE :=
  RE.star (RE.cat wildcardRE (RE.plus (RE.alt (reLit '/') RE.atEnd)))

/-- Tokens of a character-class body as the compiler emits it. -/
inductive ClassTok where
  | chr (n : Nat)
  | dash
  | preset (rs : List (Nat × Nat))
deriving DecidableEq

/-- Tokenize an emitted class body (`\d`/`\s`/`\w` presets, escaped
literals, raw characters, raw `-`). -/
def classToks : List Char → Except JsError (List ClassTok)
  | [] => Except.ok []
  | a :: rest =>
    if a = '\\' then
      match rest with
      | [] => Except.error (JsError.syntaxError "Invalid regular expression")
      | c :: rest2 =>
        let tok :=
          if c = 'd' then ClassTok.preset digitRanges
          else if c = 's' then ClassTok.preset spaceRanges
          else if c = 'w' then ClassTok.preset wordRanges
          else ClassTok.chr c.toNat
        (tok :: ·) <$> classToks rest2
    else if a = '-' then (ClassTok.dash :: ·) <$> classToks rest
    else (ClassTok.chr a.toNat :: ·) <$> classToks rest

/-- Build class ranges: a raw `-` between two single characters forms a
range (out-of-order ranges are a `SyntaxError`, as from `new RegExp`);
elsewhere `-` is literal. -/
def toksToRanges : List ClassTok → Except JsError (List (Nat × Nat))
  | ClassTok.chr a :: ClassTok.dash :: ClassTok.chr b :: rest =>
    if a ≤ b then ((a, b) :: ·) <$> toksToRanges rest
    else Except.error (JsError.syntaxError "Range out of order in character class")
  | ClassTok.chr a :: rest => ((a, a) :: ·) <$> toksToRanges rest
  | ClassTok.dash :: rest => ((45, 45) :: ·) <$> toksToRanges rest
  | ClassTok.preset rs :: rest => (rs ++ ·) <$> toksToRanges rest
  | [] => Except.ok []

/-- Interpret an emitted class body: a leading raw `^` negates. -/
def parseClassBody (l : List Char) : Except JsError RE := do
  let (neg, body) :=
    match l with
    | c :: rest => if c = '^' then (true, rest) else (false, l)
    | [] => (false, ([] : List Char))
  let toks ← classToks body
  let rs ← toksToRanges toks
  pure (RE.cls neg rs)

/-- The replacement text for a recognized `[:name:]` POSIX class (the exact
character sequence the compiler appends to the class body; unknown names
contribute nothing). -/
def posixExpansion (value : List Char) : List Char :=
  if value = "alnum".data then '\\' :: 'd' :: "A-Za-z".data
  else if value = "alpha".data then "A-Za-z".data
  else if value = "ascii".data then [Char.ofNat 0, '-', Char.ofNat 0x7F]
  else if value = "blank".data then ['\t', ' ']
  else if value = "cntrl".data then [Char.ofNat 0, '-', Char.ofNat 0x1F, Char.ofNat 0x7F]
  else if value = "digit".data then ['\\', 'd']
  else if value = "graph".data then [Char.ofNat 0x21, '-', Char.ofNat 0x7E]
  else if value = "lower".data then "a-z".data
  else if value = "print".data then [Char.ofNat 0x20, '-', Char.ofNat 0x7E]
  else if value = "punct".data then
    ['!', Char.ofNat 34, '#', '$', '%', '&', Char.ofNat 39, '(', ')', '*', '+',
     ',', '\\', '-', '.', '/', ':', ';', '<', '=', '>', '?', '@', '[', '\\',
     '\\', '\\', ']', '^', '_', Char.ofNat 0x2018, Char.ofNat 123, '|',
     Char.ofNat 125, '~']
  else if value = "space".data then ['\\', 's']
  else if value = "upper".data then "A-Z".data
  else if value = "word".data then ['\\', 'w']
  else if value = "xdigit".data then '\\' :: 'd' :: "A-Fa-f".data
  else []

/-- Concatenation of a list of regexes. -/
def catList : List RE → RE
  | [] => RE.eps
  | [r] => r
  | r :: rest => RE.cat r (catList rest)

/-- Alternation of a list of regexes. -/
def altFold : List RE → RE
  | [] => RE.eps
  | [r] => r
  | r :: rest => RE.alt r (altFold rest)

/-- Compiler state inside one segment of the glob (the AST counterpart of
the source's `segment` string, `groupStack`, `inRange`, `inEscape`,
`endsWithSep`, plus the raw segment characters for the parse-failure
fallback and the previous character for the globstar test). -/
structure GlobSt where
  whole : List RE
  cur : List RE
  groups : List (Char × List RE × List RE)
  inRange : Bool
  rangeStr : List Char
  inEscape : Bool
  endsWithSep : Bool
  rawSeg : List Char
  prev : Option Char

/-- End-of-segment processing: with an unclosed group, range or escape the
whole segment is re-emitted literally; then the separator (`/+`, or `/*` at
the end of the glob) is appended unless a globstar already ended the
segment. -/
def closeSegment (st : GlobSt) (more : Bool) : List RE :=
  let (seg, ews) :=
    if st.groups ≠ [] ∨ st.inRange ∨ st.inEscape then
      (catList (st.rawSeg.map reLit),
        if st.rawSeg ≠ [] then false else st.endsWithSep)
    else (catList st.cur, st.endsWithSep)
  st.whole ++ [seg] ++ (if ews then [] else [if more then sepRE else sepMaybeRE])

/-- A fresh segment state carrying over the accumulated whole regex. -/
def newSegment (whole : List RE) (prev : Option Char) : GlobSt :=
  ⟨whole, [], [], false, [], false, false, [], prev⟩

/-- One step of the compiler's inner per-character loop (`c` is the current
character, `rest` the characters after it); returns the remaining input and
the updated state.  Branches mirror the source's order: escape continuation,
escape start, `[` (class open / POSIX class), `]`, in-class characters,
`)`, `|`, `+(`, `@(`, `?`, `!(`, `{`, `}`, `,`, `*`, literal. -/
def globStep (c : Char) (rest : List Char) (st : GlobSt) :
    Except JsError (List Char × GlobSt) :=
  if st.inEscape then
    let st := { st with inEscape := false, rawSeg := st.rawSeg ++ [c], prev := some c }
    if st.inRange then
      Except.ok (rest, { st with rangeStr := st.rangeStr ++
        (if c = '-' ∨ c = '\\' ∨ c = ']' then ['\\', c] else [c]) })
    else
      Except.ok (rest, { st with cur := st.cur ++ [reLit c] })
  else if c = '\\' then
    Except.ok (rest,
      { st with inEscape := true, rawSeg := st.rawSeg ++ [c], prev := some c })
  else if c = '[' ∧ st.inRange = false then
    match rest with
    | d :: rest2 =>
      if d = '!' then
        Except.ok (rest2,
          { st with inRange := true, rangeStr := ['^'], rawSeg := st.rawSeg ++ [c, d], prev := some d })
      else if d = '^' then
        Except.ok (rest2,
          { st with inRange := true, rangeStr := ['\\', '^'], rawSeg := st.rawSeg ++ [c, d], prev := some d })
      else
        Except.ok (rest,
          { st with inRange := true, rangeStr := [], rawSeg := st.rawSeg ++ [c], prev := some c })
    | [] =>
      Except.ok (rest,
        { st with inRange := true, rangeStr := [], rawSeg := st.rawSeg ++ [c], prev := some c })
  else if c = '[' ∧ st.inRange = true ∧ rest.head? = some ':' then
    -- POSIX class scan: value runs to the next `:`, which must be
    -- followed by `]`; otherwise only the `[` is consumed (and dropped).
    let r2 := rest.tail
    let value := r2.takeWhile (fun d => d ≠ ':')
    match r2.dropWhile (fun d => d ≠ ':') with
    | ':' :: ']' :: a3 =>
      Except.ok (a3,
        { st with rangeStr := st.rangeStr ++ posixExpansion value, rawSeg := st.rawSeg ++ [c, ':'] ++ value ++ [':', ']'], prev := some ']' })
    | _ =>
      Except.ok (rest, { st with rawSeg := st.rawSeg ++ [c], prev := some c })
  else if c = ']' ∧ st.inRange = true then do
    let cls ← parseClassBody st.rangeStr
    Except.ok (rest,
      { st with inRange := false, rangeStr := [], cur := st.cur ++ [cls], rawSeg := st.rawSeg ++ [c], prev := some c })
  else if st.inRange = true then
    Except.ok (rest,
      { st with rangeStr := st.rangeStr ++ (if c = '\\' then ['\\', '\\'] else [c]), rawSeg := st.rawSeg ++ [c], prev := some c })
  else
    match st.groups with
    | (ty, alts, saved) :: gtail =>
      if c = ')' ∧ ty ≠ Char.ofNat 123 then
        let inner := altFold (alts ++ [catList st.cur])
        let add :=
          if ty = '!' then [RE.nlook inner, wildcardRE]
          else if ty = '@' then [inner]
          else if ty = '+' then [RE.plus inner]
          else if ty = '?' then [RE.opt inner]
          else [RE.star inner]
        Except.ok (rest,
          { st with groups := gtail, cur := saved ++ add, rawSeg := st.rawSeg ++ [c], prev := some c })
      else if c = '|' ∧ ty ≠ Char.ofNat 123 then
        Except.ok (rest,
          { st with groups := (ty, alts ++ [catList st.cur], saved) :: gtail, cur := [], rawSeg := st.rawSeg ++ [c], prev := some c })
      else if c = Char.ofNat 125 ∧ ty = Char.ofNat 123 then
        let inner := altFold (alts ++ [catList st.cur])
        Except.ok (rest,
          { st with groups := gtail, cur := saved ++ [inner], rawSeg := st.rawSeg ++ [c], prev := some c })
      else if c = ',' ∧ ty = Char.ofNat 123 then
        Except.ok (rest,
          { st with groups := (ty, alts ++ [catList st.cur], saved) :: gtail, cur := [], rawSeg := st.rawSeg ++ [c], prev := some c })
      else globStepPlain c rest st
    | [] => globStepPlain c rest st
where
  /-- The group-independent branches (`+(`, `@(`, `?`, `!(`, `{`, `*`,
  literal). -/
  globStepPlain (c : Char) (rest : List Char) (st : GlobSt) :
      Except JsError (List Char × GlobSt) :=
    if (c = '+' ∨ c = '@' ∨ c = '?' ∨ c = '!' ∨ c = '*') ∧ rest.head? = some '(' then
      Except.ok (rest.tail,
        { st with groups := (c, [], st.cur) :: st.groups, cur := [], rawSeg := st.rawSeg ++ [c, '('], prev := some '(' })
    else if c = '?' then
      Except.ok (rest,
        { st with cur := st.cur ++ [dotRE], rawSeg := st.rawSeg ++ [c], prev := some c })
    else if c = Char.ofNat 123 then
      Except.ok (rest,
        { st with groups := (c, [], st.cur) :: st.groups, cur := [], rawSeg := st.rawSeg ++ [c], prev := some c })
    else if c = '*' then
      let stars := rest.takeWhile (fun d => d = '*')
      let rest2 := rest.drop stars.length
      let numStars := 1 + stars.length
      if numStars = 2 ∧ (st.prev = none ∨ st.prev = some '/') ∧
          (rest2.head? = none ∨ rest2.head? = some '/') then
        Except.ok (rest2,
          { st with cur := st.cur ++ [globstarRE], endsWithSep := true, rawSeg := st.rawSeg ++ c :: stars, prev := some '*' })
      else
        Except.ok (rest2,
          { st with cur := st.cur ++ [wildcardRE], rawSeg := st.rawSeg ++ c :: stars, prev := some '*' })
    else
      Except.ok (rest,
        { st with cur := st.cur ++ [reLit c], rawSeg := st.rawSeg ++ [c], prev := some c })

/-- The compiler's outer loop: segments separated by (runs of) `/`.  The
fuel is one more than the number of characters left, which every step
strictly decreases. -/
def globLoop : Nat → List Char → GlobSt → Except JsError (List RE)
  | 0, _, _ => Except.error (JsError.syntaxError "Invalid regular expression")
  | _ + 1, [], st => Except.ok (closeSegment st false)
  | fuel + 1, c :: rest, st =>
    if c = '/' then
      globLoop fuel (rest.dropWhile (fun d => d = '/'))
        (newSegment (closeSegment st true) (some '/'))
    else do
      let (rest2, st2) ← globStep c rest st
      globLoop fuel rest2 st2

/-- Remove trailing separators, keeping at least one character. -/
def trimSeps (l : List Char) : List Char :=
  let rec go : List Char → List Char
    | c :: rest => if c = '/' ∧ rest ≠ [] then go rest else c :: rest
    | [] => []
  (go l.reverse).reverse

/-- `globToRegExp(glob)` with the default options (`extended`, `globstar`,
`os = linux`), as the regex body of the anchored `^...$` it returns;
the empty glob compiles to `(?!)`, which matches nothing. -/
def globToRegExp (glob : String) : Except JsError RE :=
  if glob = "" then Except.ok (RE.nlook RE.eps)
  else do
    let l := trimSeps glob.data
    let whole ← globLoop (l.length + 2) l (newSegment [] none)
    pure (catList whole)

/-- `ArchiveReader.expandGlob`: compile the pattern, then yield each
record's path whose whole value the anchored regexp matches, in archive
order. -/
def expandGlob (assets : List IArchiveAssetReference) (glob : String) :
    Except JsError (List String) := do
  let re ← globToRegExp glob
  pure (((assets.filter (fun r => reTest re r.path.data)).map
    IArchiveAssetReference.path))

/-- C3: `expandGlob(pattern)` yields exactly the record paths whose entire
logical path (leading `/` included) the compiled anchored pattern matches —
one yield per matching record, in the archive's original order (it is the
path image of the order-preserving filter) — and repeated calls with the
same pattern on the same reader give equal results. -/
theorem c3_expandGlob_matches (assets : List IArchiveAssetReference)
    (glob : String) (re : RE) (h : globToRegExp glob = Except.ok re) :
    expandGlob assets glob =
        Except.ok ((assets.filter (fun r => reTest re r.path.data)).map
          IArchiveAssetReference.path) ∧
      (∀ p, p ∈ (assets.filter (fun r => reTest re r.path.data)).map
          IArchiveAssetReference.path ↔
        ∃ r ∈ assets, r.path = p ∧ reTest re r.path.data = true) ∧
      expandGlob assets glob = expandGlob assets glob := by
  refine ⟨?_, ?_, rfl⟩
  · unfold expandGlob
    rw [h, except_bind_ok]
    rfl
  · intro p
    simp only [List.mem_map, List.mem_filter]
    constructor
    · rintro ⟨r, ⟨hr, hm⟩, rfl⟩
      exact ⟨r, hr, rfl, hm⟩
    · rintro ⟨r, hr, rfl, hm⟩
      exact ⟨r, ⟨hr, hm⟩, rfl⟩

/-- The archive of the repository's own test scenario. -/
def scenarioAssets : List IArchiveAssetReference :=
  [⟨"/test_assets/asset_1.txt", "aGk="⟩, ⟨"/test_assets/asset_2.txt", "eW8="⟩]

/-- The compiled matcher of the scenario pattern. -/
def scenarioRe : RE :=
  ((globToRegExp "/test_assets/*_2.txt").toOption).getD RE.eps

/-- C3 witness: on the two-record scenario archive the pattern
`/test_assets/*_2.txt` selects exactly `/test_assets/asset_2.txt`. -/
theorem c3_witness :
    (expandGlob scenarioAssets "/test_assets/*_2.txt" =
        Except.ok ((scenarioAssets.filter
          (fun r => reTest scenarioRe r.path.data)).map
            IArchiveAssetReference.path) ∧
      (∀ p, p ∈ (scenarioAssets.filter
          (fun r => reTest scenarioRe r.path.data)).map
            IArchiveAssetReference.path ↔
        ∃ r ∈ scenarioAssets, r.path = p ∧ reTest scenarioRe r.path.data = true) ∧
      expandGlob scenarioAssets "/test_assets/*_2.txt" =
        expandGlob scenarioAssets "/test_assets/*_2.txt") ∧
    (scenarioAssets.filter (fun r => reTest scenarioRe r.path.data)).map
        IArchiveAssetReference.path = ["/test_assets/asset_2.txt"] :=
  ⟨c3_expandGlob_matches scenarioAssets "/test_assets/*_2.txt" scenarioRe rfl,
   by decide⟩

/-! ## The reader as a stateful object (claim C9)

The `ArchiveReader` class holds one field, `readonly assets`, and no method
body contains an assignment, so each operation is modelled as a state
transformer that returns its result together with the (unchanged) reader. -/

structure ArchiveReader where
  assets : List IArchiveAssetReference

/-- `readFileSync` as a method on the reader state. -/
def ArchiveReader.readFileSyncOp (r : ArchiveReader) (p : PathArg) :
    Except JsError (List Nat) × ArchiveReader :=
  (readFileSync r.assets p, r)

/-- `readFile` as a method on the reader state. -/
def ArchiveReader.readFileOp (r : ArchiveReader) (p : PathArg) :
    Except JsError (Except JsError (List Nat)) × ArchiveReader :=
  (readFile r.assets p, r)

/-- `readTextFileSync` as a method on the reader state. -/
def ArchiveReader.readTextFileSyncOp (r : ArchiveReader) (p : PathArg) :
    Except JsError String × ArchiveReader :=
  (readTextFileSync r.assets p, r)

/-- `readTextFile` as a method on the reader state. -/
def ArchiveReader.readTextFileOp (r : ArchiveReader) (p : PathArg) :
    Except JsError (Except JsError String) × ArchiveReader :=
  (readTextFile r.assets p, r)

/-- `expandGlob` as a method on the reader state (the generator run to a
list; each call recompiles the pattern and rescans). -/
def ArchiveReader.expandGlobOp (r : ArchiveReader) (g : String) :
    Except JsError (List String) × ArchiveReader :=
  (expandGlob r.assets g, r)

/-- C9: no operation mutates the reader — the archive after any call
(including failing ones) is the archive before it — and therefore repeated
calls with the same argument return equal results across the reader's
lifetime. -/
theorem c9_reader_immutable (r : ArchiveReader) (p : PathArg) (g : String) :
    (r.readFileSyncOp p).2 = r ∧ (r.readFileOp p).2 = r ∧
      (r.readTextFileSyncOp p).2 = r ∧ (r.readTextFileOp p).2 = r ∧
      (r.expandGlobOp g).2 = r ∧
      ((r.readFileSyncOp p).2.readFileSyncOp p).1 = (r.readFileSyncOp p).1 ∧
      ((r.readTextFileSyncOp p).2.readTextFileSyncOp p).1 =
        (r.readTextFileSyncOp p).1 ∧
      ((r.expandGlobOp g).2.expandGlobOp g).1 = (r.expandGlobOp g).1 :=
  ⟨rfl, rfl, rfl, rfl, rfl, rfl, rfl, rfl⟩
